import Mathlib

/-!
Verification of the `mdo_algorithm` solver-integration layer.

This file gives a shallow embedding, in Lean 4, of the parts of the
`mdo_algorithm` repository that the specification claims talk about:

* the geometry model (`Wing.span`, `Wing.planform_area`,
  `Wing.chord_distribution` from
  `mdo_algorithm/disciplines/aerodynamics/models/geometries/main.py`);
* the AVL input serializer (`Header`, `Section`, `Surface`, `Body`,
  `GeometryInput`, `ProfileDragSettings` from
  `mdo_algorithm/disciplines/aerodynamics/models/avl/main.py`);
* the AVL service driver (`AvlService.get_wing_coefficients`,
  `AvlService.get_wing_lift_coefficient_distribution` from
  `mdo_algorithm/disciplines/aerodynamics/services/avl/main.py`).

Python floats are modelled as rational numbers (`ℚ`): all concrete values
exercised by the theorems below are exactly representable, and none of the
verified claims depend on rounding behaviour.  Quantities that the source
feeds through `numpy.sqrt` or compares against integrals are modelled in `ℝ`.
Python exceptions are modelled by an explicit error type: a call that can
raise is embedded as an `Except`-valued function.
-/

deriving instance DecidableEq for Except

namespace MdoAlgorithm

/-- The Python exceptions that the embedded code can raise.
`valueError` stands for the built-in `ValueError` (raised by `max()` on an
empty sequence, by `Series.idxmin` on an empty frame, and explicitly by the
mirrored-surface checks); `indexError` for `IndexError` (empty `.values[0]`
lookup); `fileNotFoundError` for `FileNotFoundError` (missing file on `open`
or `os.remove`); `schemaError` for pandera's `SchemaError`.  The
specification's `ConfigurationError` taxonomy name is realised in the code
by `ValueError`. -/
inductive PyErr : Type
  | valueError
  | indexError
  | fileNotFoundError
  /-- pandera's `SchemaError`, raised when the typed dataframe constructor
  validates a frame that does not match its schema (e.g. the empty frame
  built from a report with no matching blocks). -/
  | schemaError
  deriving DecidableEq, Repr

/-- Source `common/models/geometries/main.py`: a three-dimensional point
(`x` downstream, `y` spanwise, `z` vertical). -/
structure Xyz : Type where
  x : ℚ
  y : ℚ
  z : ℚ
  deriving DecidableEq, Repr

/-- Source `models/geometries/main.py`, `WingSection`: leading-edge location, local
chord, twist angle and the associated airfoil (identified by name only). -/
structure WingSection : Type where
  location : Xyz
  chord : ℚ
  twist : ℚ
  airfoil : String
  deriving DecidableEq, Repr

/-- Source `models/geometries/main.py`, `Wing`: a list of sections. -/
structure Wing : Type where
  section_array : List WingSection
  deriving DecidableEq, Repr

/-- Python's `max` over a non-empty iterable, `none` when the iterable is
empty (where `max()` raises `ValueError`). -/
def listMax : List ℚ → Option ℚ
  | [] => none
  | v :: vs => some (vs.foldl max v)

/-- Source `Wing.span`: `2 * max(s.location.y for s in self.section_array)`.
On an empty section list the `max` call raises `ValueError`. -/
def Wing.span (w : Wing) : Except PyErr ℚ :=
  match listMax (w.section_array.map (fun s => s.location.y)) with
  | none => .error .valueError
  | some m => .ok (2 * m)

/-- Source `sorted(self.section_array, key=lambda x: x.location.y)`: Python's stable
sort by spanwise coordinate, modelled by stable insertion sort. -/
def Wing.sortedSections (w : Wing) : List WingSection :=
  List.insertionSort (fun a b => a.location.y ≤ b.location.y) w.section_array

/-- The adjacent pairs `[(sections[i], sections[i+1]) for i in range(len(sections)-1)]`. -/
def adjacentPairs {α : Type} (l : List α) : List (α × α) :=
  l.zip l.tail

/-- Source `Wing.planform_area`: twice the sum over adjacent sorted section pairs of
`0.5 * (s1.chord + s2.chord) * sqrt((Δy)^2 + (Δx)^2)`.  The square root is
real, so the value lives in `ℝ`. -/
noncomputable def Wing.planform_area (w : Wing) : ℝ :=
  2 * ((adjacentPairs w.sortedSections).map (fun p =>
      (1 / 2 : ℝ) * ((p.1.chord : ℝ) + (p.2.chord : ℝ)) *
        Real.sqrt (((p.2.location.y : ℝ) - (p.1.location.y : ℝ)) ^ 2 +
          ((p.2.location.x : ℝ) - (p.1.location.x : ℝ)) ^ 2))).sum

/-- Source `numpy.interp y xs fs` on the list of breakpoints `(x, f)` (assumed sorted
ascending by `x`): boundary-hold outside the range, linear interpolation
inside.  Generic over the field so that the same definition serves the exact
(`ℚ`) and the integrable (`ℝ`) view. -/
def interp {α : Type} [LinearOrderedField α] (y : α) : List (α × α) → α
  | [] => 0
  | [(_, c)] => c
  | (x1, c1) :: (x2, c2) :: rest =>
    if y ≤ x1 then c1
    else if y ≤ x2 then c1 + (c2 - c1) * (y - x1) / (x2 - x1)
    else interp y ((x2, c2) :: rest)

/-- Source `Wing.chord_distribution`: `np.interp(y, ys, chords)` with `ys`, `chords`
read off the sections sorted by spanwise coordinate. -/
def Wing.chord_distribution (w : Wing) (y : ℚ) : ℚ :=
  interp y (w.sortedSections.map (fun s => (s.location.y, s.chord)))

/-- The real-valued view of `Wing.chord_distribution`, used to state the
integral claim: the same `np.interp`, with the breakpoints cast into `ℝ`. -/
noncomputable def Wing.chordDistR (w : Wing) (y : ℝ) : ℝ :=
  interp y (w.sortedSections.map (fun s => ((s.location.y : ℝ), (s.chord : ℝ))))

/-! ## Python numeric rendering

The serializer renders every float field through `str(float(x))`.  For the
exactly-representable decimal values the repository feeds through it, that is
the plain decimal expansion with a fractional part (`str(0.0) = "0.0"`) while
`1e-4 ≤ |x| < 1e16`, and Python's exponent notation (`str(0.00005) = "5e-05"`,
no decimal point) outside that band.  `pyFloatStr` reproduces that rendering
for rationals with a terminating decimal expansion (the fuel of 30 digits
covers every double).  -/

/-- The decimal digits of the fraction `r / den` (with `0 ≤ r < den`), most
significant first; empty once the expansion terminates.  Computed by long
division on the numerator and denominator so that the kernel can evaluate it
(the `ℚ` field operations are `@[irreducible]`). -/
def fracDigits : Nat → Nat → Nat → String
  | 0, _, _ => ""
  | fuel + 1, r, den =>
    if r = 0 then ""
    else toString (r * 10 / den) ++ fracDigits fuel (r * 10 % den) den

/-- The base-10 magnitude of `n` (`⌊log10 n⌋`), by repeated division; written
with fuel so that the kernel can evaluate it. -/
def natLog10 : Nat → Nat → Nat
  | 0, _ => 0
  | fuel + 1, n => if n < 10 then 0 else 1 + natLog10 fuel (n / 10)

/-- For `na / den < 1`: the smallest `k ≥ 1` with `na * 10 ^ k ≥ den`, i.e.
the negated decimal exponent of the value. -/
def negExp : Nat → Nat → Nat → Nat
  | 0, _, _ => 0
  | fuel + 1, na, den => if den ≤ na * 10 then 1 else 1 + negExp fuel (na * 10) den

/-- Python's exponent rendering of the positive value `na / den`: mantissa
digits (with a decimal point only when the mantissa is not a single digit),
`e`, the sign of the exponent, and the exponent zero-padded to two digits
(`0.00005 ↦ "5e-05"`, `10^16 ↦ "1e+16"`, `1.5·10^16 ↦ "1.5e+16"`). -/
def sciStr (na den : Nat) : String :=
  let e : ℤ := if den ≤ na then (natLog10 400 (na / den) : ℤ) else -(negExp 400 na den : ℤ)
  let mn := if 0 ≤ e then na else na * 10 ^ e.natAbs
  let md := if 0 ≤ e then den * 10 ^ e.natAbs else den
  let ip := mn / md
  let r := mn % md
  toString ip ++ (if r = 0 then "" else "." ++ fracDigits 30 r md) ++ "e" ++
    (if e < 0 then "-" else "+") ++
    (if e.natAbs < 10 then "0" ++ toString e.natAbs else toString e.natAbs)

/-- Source `str(float(x))` for a decimal-representable value.  Python prints a
nonzero float in positional decimal — sign, integer part, `'.'`, fractional
digits — only while `1e-4 ≤ |x| < 1e16`; below or beyond it switches to
exponent notation, which carries no decimal point when the mantissa is a
single digit.  The thresholds are expressed on the numerator/denominator
(`|q| < 1/10000 ↔ 10000·na < den`, `|q| ≥ 10^16 ↔ 10^16·den ≤ na`) and the
digits come from long division, so the kernel can evaluate the rendering. -/
def pyFloatStr (q : ℚ) : String :=
  let na := q.num.natAbs
  let den := q.den
  let sign := if q.num < 0 then "-" else ""
  if na = 0 then "0.0"
  else if 10000 * na < den ∨ 10 ^ 16 * den ≤ na then sign ++ sciStr na den
  else
    sign ++ toString (na / den) ++ "." ++
      (if na % den = 0 then "0" else fracDigits 30 (na % den) den)

/-- Membership of the dot character in the rendered string: the token has a
decimal point (a fractional part). -/
def hasDot (s : String) : Prop := '.' ∈ s.data

instance (s : String) : Decidable (hasDot s) := by
  unfold hasDot; infer_instance

/-- Python's `round(x, 3)` on exact decimals: round half to even at the third
decimal place.  Written with integer numerator/denominator arithmetic
(`n / d = q * 1000`, `fl = ⌊q * 1000⌋`, remainder `r`) so that the kernel can
evaluate it. -/
def pyRound3 (q : ℚ) : ℚ :=
  let n := q.num * 1000
  let d : ℤ := (q.den : ℤ)
  let fl := n.ediv d
  let r := n - fl * d
  mkRat (if 2 * r = d then (if fl % 2 = 0 then fl else fl + 1) else (2 * n + d).ediv (2 * d)) 1000

/-- Source `numpy.arange(start, stop, step)` over exact rationals: the values
`start + k * step` for `0 ≤ k < ⌈(stop - start) / step⌉` (empty for a
nonpositive count; `step = 0` raises in numpy and is mapped to `[]`). -/
def arangeQ (start stop step : ℚ) : List ℚ :=
  if step = 0 then []
  else (List.range (Int.toNat ⌈(stop - start) / step⌉)).map fun (k : ℕ) => start + (k : ℚ) * step

/-! ## XFOIL coefficient tables and `ProfileDragSettings`

`models/data_frame/main.py` fixes the `Coefficients` schema: columns `alpha`,
`lift_coefficient`, `drag_coefficient`, `moment_coefficient`.  A dataframe is
modelled as the list of its rows in index order. -/

/-- One row of a `Coefficients` dataframe. -/
structure CoefRow : Type where
  alpha : ℚ
  lift_coefficient : ℚ
  drag_coefficient : ℚ
  moment_coefficient : ℚ
  deriving DecidableEq, Repr

/-- Source `Series.idxmin` composed with row lookup: the first row attaining the
minimum of `f`, `none` on an empty frame (where pandas raises `ValueError`). -/
def firstMinBy {α : Type} (f : α → ℚ) : List α → Option α
  | [] => none
  | r :: rs =>
    match firstMinBy f rs with
    | none => some r
    | some m => if f r ≤ f m then some r else some m

/-- Source `Series.idxmax` composed with row lookup: the first row attaining the
maximum of `f`. -/
def firstMaxBy {α : Type} (f : α → ℚ) : List α → Option α
  | [] => none
  | r :: rs =>
    match firstMaxBy f rs with
    | none => some r
    | some m => if f m ≤ f r then some r else some m

/-- Source `models/avl/main.py`, `ProfileDragSettings`: three (CL, CD) breakpoints. -/
structure ProfileDragSettings : Type where
  cl1 : ℚ
  cd1 : ℚ
  cl2 : ℚ
  cd2 : ℚ
  cl3 : ℚ
  cd3 : ℚ
  deriving DecidableEq, Repr

/-- Source `ProfileDragSettings.from_xfoil_coefficients`.  Python evaluates the
constructor arguments in order: `cl1`/`cd1` (the `min`/`idxmin` pair — pandas
`min` of an empty series is silently `NaN`, but `idxmin` raises `ValueError`),
then `cl2`/`cd2` (first row with `alpha == 0`; `.values[0]` raises
`IndexError` when there is none), then `cl3`/`cd3` (`max`/`idxmax`). -/
def ProfileDragSettings.from_xfoil_coefficients (coefficients : List CoefRow) :
    Except PyErr ProfileDragSettings :=
  match firstMinBy (fun r => r.lift_coefficient) coefficients with
  | none => .error .valueError
  | some rmin =>
    match coefficients.find? (fun r => r.alpha == 0) with
    | none => .error .indexError
    | some r0 =>
      match firstMaxBy (fun r => r.lift_coefficient) coefficients with
      | none => .error .valueError
      | some rmax =>
        .ok ⟨rmin.lift_coefficient, rmin.drag_coefficient,
          r0.lift_coefficient, r0.drag_coefficient,
          rmax.lift_coefficient, rmax.drag_coefficient⟩

/-! ## The AVL geometry document serializer (`models/avl/main.py`)

Each `to_input_file` method builds a `line_array: list[str]` where a line is
either a literal string or a `" ".join` of rendered fields; a field is either
`str(float(x))` (a float field) or `str(i)` (an integer field: vortex counts,
`IntEnum` symmetry/deflection values).  A line is modelled as a list of
tokens tagged with which of the two renderings produced them, so that the
claims about numeric formatting can quantify over the fields of the
document. -/

/-- One rendered field of an input-file line. -/
inductive Tok : Type
  | lit (s : String)
  | num (q : ℚ)
  | int (n : ℤ)
  deriving DecidableEq, Repr

/-- The string a token contributes to its line: `str(float(q))` for float
fields, `str(n)` for integer fields, the literal itself otherwise. -/
def Tok.render : Tok → String
  | .lit s => s
  | .num q => pyFloatStr q
  | .int n => toString n

/-- A line of `line_array`: `" ".join` of its rendered fields (a
single-literal line renders as the literal). -/
def renderLine (l : List Tok) : String :=
  String.intercalate " " (l.map Tok.render)

/-- Source `"\n".join(line_array)`. -/
def renderLines (ls : List (List Tok)) : String :=
  String.intercalate "\n" (ls.map renderLine)

/-- A blank separator line (`""` in `line_array`). -/
def blankLine : List Tok := [.lit ""]

/-- Is the token a `str(float(...))`-rendered field? -/
def Tok.isNum : Tok → Bool
  | .num _ => true
  | _ => false

/-- Is the token a `str(int)`-rendered field (`IntEnum` values, vortex
counts)? -/
def Tok.isInt : Tok → Bool
  | .int _ => true
  | _ => false

/-- Source `Symmetry(IntEnum)`: iYsym/iZsym values. -/
inductive Symmetry : Type
  | symmetric
  | antisymmetric
  | ignore
  deriving DecidableEq, Repr

/-- The `IntEnum` value: SYMMETRIC = 1, ANTISYMMETRIC = -1, IGNORE = 0. -/
def Symmetry.value : Symmetry → ℤ
  | .symmetric => 1
  | .antisymmetric => -1
  | .ignore => 0

/-- Source `Deflection(IntEnum)`: NORMAL = 1, INVERSE = -1. -/
inductive Deflection : Type
  | normal
  | inverse
  deriving DecidableEq, Repr

/-- The `IntEnum` value of a deflection. -/
def Deflection.value : Deflection → ℤ
  | .normal => 1
  | .inverse => -1

/-- Source `Header` of an AVL input file. -/
structure Header : Type where
  title : String
  default_mach_number : ℚ
  y_symmetry : Symmetry
  z_symmetry : Symmetry
  xy_plane_location : ℚ
  reference_area : ℚ
  reference_chord : ℚ
  reference_span : ℚ
  default_location : Xyz
  default_profile_drag_coefficient : Option ℚ
  deriving DecidableEq, Repr

/-- Source `if line_array[-1] != "": line_array.append("")`. -/
def padTrailingBlank (ls : List (List Tok)) : List (List Tok) :=
  if ls.getLast? = some blankLine then ls else ls ++ [blankLine]

/-- Source `Header.to_input_file`, as its `line_array`. -/
def Header.to_input_file (h : Header) : List (List Tok) :=
  padTrailingBlank <|
    [[.lit "# case title"], [.lit h.title], blankLine,
     [.lit "# Mach"], [.num h.default_mach_number], blankLine,
     [.lit "# iYsym iZsym Zsym"],
     [.int h.y_symmetry.value, .int h.z_symmetry.value, .num h.xy_plane_location],
     blankLine,
     [.lit "# Sref Cref Bref"],
     [.num h.reference_area, .num h.reference_chord, .num h.reference_span],
     blankLine,
     [.lit "# Xref Yref Zref"],
     [.num h.default_location.x, .num h.default_location.y, .num h.default_location.z]] ++
    (match h.default_profile_drag_coefficient with
     | some cdp => [blankLine, [.lit "# CDp"], [.num cdp], blankLine]
     | none => [])

/-- Source `Control`: a control surface of a section. -/
structure Control : Type where
  name : String
  gain : ℚ
  hinge_x_location : ℚ
  hinge_axis_location : Xyz
  deflection : Deflection
  deriving DecidableEq, Repr

/-- Source `Control.to_input_file`, as its `line_array`. -/
def Control.to_input_file (c : Control) : List (List Tok) :=
  [[.lit "CONTROL"], blankLine,
   [.lit "# name, gain, Xhinge, XYZhvec, SgnDup"],
   [.lit c.name, .num c.gain, .num c.hinge_x_location, .num c.hinge_axis_location.x,
    .num c.hinge_axis_location.y, .num c.hinge_axis_location.z, .int c.deflection.value],
   blankLine]

/-- Source `AIRFOILS_PATH` from `aerodynamics/constants/main.py` (`os.path.join`
rendered with `/`). -/
def AIRFOILS_PATH : String := "mdo_algorithm/disciplines/aerodynamics/airfoils"

/-- Source `Section`: a sectional element of a surface. -/
structure Section : Type where
  location : Xyz
  chord : ℚ
  incremental_angle : ℚ
  spanwise_vortice_count : Option ℤ
  spanwise_vortex_spacing : Option ℚ
  airfoil : String
  control_array : List Control
  cl_alpha_slope_scaling : Option ℚ
  profile_drag_settings : Option ProfileDragSettings
  deriving DecidableEq, Repr

/-- The six-field CDCL line `# CL1 CD1 CL2 CD2 CL3 CD3`. -/
def cdclLine (p : ProfileDragSettings) : List Tok :=
  [.num p.cl1, .num p.cd1, .num p.cl2, .num p.cd2, .num p.cl3, .num p.cd3]

/-- Source `Section.to_input_file`, as its `line_array` (the control blocks are
appended to the rendered string separately, mirroring the source's
`"\n".join(line_array) + "\n".join(controls)`). -/
def Section.to_input_file (s : Section) : List (List Tok) :=
  padTrailingBlank <|
    [[.lit "SECTION"], blankLine,
     [.lit "# Xle Yle Zle Chord Ainc [ Nspan Sspace ]"],
     [.num s.location.x, .num s.location.y, .num s.location.z, .num s.chord,
      .num s.incremental_angle,
      (match s.spanwise_vortice_count with | some n => .int n | none => .lit ""),
      (match s.spanwise_vortex_spacing with | some q => .num q | none => .lit "")],
     blankLine,
     [.lit "# airfoil"], [.lit "AFILE"], [.lit (AIRFOILS_PATH ++ "/" ++ s.airfoil)]] ++
    (match s.cl_alpha_slope_scaling with
     | some claf =>
       [blankLine, [.lit "# dCL/da scaling factor"], [.lit "CLAF"], [.num claf], blankLine]
     | none => []) ++
    (match s.profile_drag_settings with
     | some p =>
       [[.lit "# CD (CL) function parameters"], [.lit "CDCL"], blankLine,
        [.lit "# CL1 CD1 CL2 CD2 CL3 CD3"], cdclLine p, blankLine]
     | none => [])

/-- The full rendered section block:
`"\n".join(line_array) + "\n".join(control strings)`. -/
def Section.render (s : Section) : String :=
  renderLines s.to_input_file ++
    String.intercalate "\n" (s.control_array.map fun c => renderLines c.to_input_file)

/-- Source `Body`: a non-lifting body. -/
structure Body : Type where
  name : String
  node_count : ℤ
  node_spacing : ℚ
  mirror_surface : Bool
  xz_plane_location : Option ℚ
  scale : Option Xyz
  translate : Option Xyz
  deriving DecidableEq, Repr

/-- The `YDUPLICATE` block emitted by a mirrored surface or body. -/
def yduplicateBlock (loc : ℚ) : List (List Tok) :=
  [blankLine, [.lit "YDUPLICATE"], blankLine, [.lit "# Ydupl"], [.num loc], blankLine]

/-- The `SCALE` block. -/
def scaleBlock (v : Xyz) : List (List Tok) :=
  [blankLine, [.lit "SCALE"], blankLine, [.lit "# Xscale Yscale Zscale"],
   [.num v.x, .num v.y, .num v.z], blankLine]

/-- The `TRANSLATE` block. -/
def translateBlock (v : Xyz) : List (List Tok) :=
  [blankLine, [.lit "TRANSLATE"], blankLine, [.lit "# dX dY dZ"],
   [.num v.x, .num v.y, .num v.z], blankLine]

/-- Source `Body.to_input_file`: raises `ValueError` when the body is mirrored but
`xz_plane_location` is absent. -/
def Body.to_input_file (b : Body) : Except PyErr (List (List Tok)) := do
  let head :=
    [[.lit "BODY"], blankLine, [.lit "# body name string"], [.lit b.name], blankLine,
     [.lit "# Nbody Bspace"], [.int b.node_count, .num b.node_spacing]]
  let mirror ←
    if b.mirror_surface then
      match b.xz_plane_location with
      | none => .error .valueError
      | some loc => pure (yduplicateBlock loc)
    else pure []
  let scale := match b.scale with | some v => scaleBlock v | none => []
  let translate := match b.translate with | some v => translateBlock v | none => []
  pure (padTrailingBlank (head ++ mirror ++ scale ++ translate))

/-- Source `Surface`: a lifting surface. -/
structure Surface : Type where
  name : String
  chordwise_vortice_count : ℤ
  chordwise_vortex_spacing : ℚ
  spanwise_vortice_count : Option ℤ
  spanwise_vortex_spacing : Option ℚ
  mirror_surface : Bool
  xz_plane_location : Option ℚ
  scale : Option Xyz
  translate : Option Xyz
  incremental_angle : Option ℚ
  ignore_wake : Bool
  ignore_freestream_effect : Bool
  ignore_load_contribution : Bool
  profile_drag_settings : Option ProfileDragSettings
  section_array : List Section
  deriving DecidableEq, Repr

/-- Source `Surface.to_input_file`, as its `line_array`: raises `ValueError` when
the surface is mirrored but `xz_plane_location` is absent (before any
further line is built). -/
def Surface.to_input_file (s : Surface) : Except PyErr (List (List Tok)) := do
  let head :=
    [[.lit "SURFACE"], blankLine, [.lit "# surface name string"], [.lit s.name], blankLine,
     [.lit "# Nchord Cspace [ Nspan Sspace ]"],
     [.int s.chordwise_vortice_count, .num s.chordwise_vortex_spacing,
      (match s.spanwise_vortice_count with | some n => .int n | none => .lit ""),
      (match s.spanwise_vortex_spacing with | some q => .num q | none => .lit "")]]
  let mirror ←
    if s.mirror_surface then
      match s.xz_plane_location with
      | none => .error .valueError
      | some loc => pure (yduplicateBlock loc)
    else pure []
  let scale := match s.scale with | some v => scaleBlock v | none => []
  let translate := match s.translate with | some v => translateBlock v | none => []
  let angle :=
    match s.incremental_angle with
    | some q => [blankLine, [.lit "ANGLE"], blankLine, [.lit "# dAinc"], [.num q], blankLine]
    | none => []
  let nowake := if s.ignore_wake then [[.lit "NOWAKE"], blankLine] else []
  let noalbe := if s.ignore_freestream_effect then [[.lit "NOALBE"], blankLine] else []
  let noload := if s.ignore_load_contribution then [[.lit "NOLOAD"], blankLine] else []
  let cdcl :=
    match s.profile_drag_settings with
    | some p =>
      [blankLine, [.lit "# CD (CL) function parameters"], [.lit "CDCL"], blankLine,
       [.lit "# CL1 CD1 CL2 CD2 CL3 CD3"], cdclLine p, blankLine]
    | none => []
  pure (padTrailingBlank
    (head ++ mirror ++ scale ++ translate ++ angle ++ nowake ++ noalbe ++ noload ++ cdcl))

/-- The full rendered surface block:
`"\n".join(["\n".join(line_array), "\n".join(section strings)])`. -/
def Surface.render (s : Surface) : Except PyErr String := do
  let ls ← s.to_input_file
  pure (renderLines ls ++ "\n" ++
    String.intercalate "\n" (s.section_array.map Section.render))

/-- Left-to-right effectful map, mirroring Python's list-comprehension
evaluation order (the first raise aborts). -/
def mapExcept {ε α β : Type} (f : α → Except ε β) : List α → Except ε (List β)
  | [] => .ok []
  | a :: as => do
    let b ← f a
    let bs ← mapExcept f as
    pure (b :: bs)

/-- Source `GeometryInput`: header, surfaces, bodies. -/
structure GeometryInput : Type where
  header : Header
  surface_array : List Surface
  body_array : List Body
  deriving DecidableEq, Repr

/-- Source `GeometryInput.to_avl` (the pure string-building part):
`"\n".join([header, "\n".join(surfaces), "\n".join(bodies)])`. -/
def GeometryInput.to_avl (g : GeometryInput) : Except PyErr String := do
  let h := renderLines g.header.to_input_file
  let ss ← mapExcept Surface.render g.surface_array
  let bs ← mapExcept (fun b => do
    let ls ← Body.to_input_file b
    pure (renderLines ls)) g.body_array
  pure (String.intercalate "\n"
    [h, String.intercalate "\n" ss, String.intercalate "\n" bs])

/-! ## The AVL mass document (`MassInput.to_mass`) -/

/-- Source `common/models/geometries/main.py`, `ProductsOfInertia`. -/
structure ProductsOfInertia : Type where
  xy : ℚ
  xz : ℚ
  yz : ℚ
  deriving DecidableEq, Repr

/-- Source `common/models/geometries/main.py`, `MassProperties`. -/
structure MassProperties : Type where
  mass : ℚ
  center_of_gravity : Xyz
  moments_of_inertia : Xyz
  products_of_inertia : ProductsOfInertia
  deriving DecidableEq, Repr

/-- Source `MassInput`: units, optional gravity/density, mass rows. -/
structure MassInput : Type where
  length_unit_meters : ℚ
  mass_unit_kilograms : ℚ
  time_unit_seconds : ℚ
  gravitational_acceleration : Option ℚ
  air_density : Option ℚ
  mass_properties_array : List MassProperties
  deriving DecidableEq, Repr

/-- Source `f"{s:>{w}}"`: right-align in a field of width `w`. -/
def padLeftStr (w : Nat) (s : String) : String :=
  String.mk (List.replicate (w - s.length) ' ') ++ s

/-- The column headers of the mass table. -/
def massHeaders : List String :=
  ["# mass", "Xcg", "Ycg", "Zcg", "Ixx", "Iyy", "Izz", "Ixy", "Ixz", "Iyz"]

/-- One data row: the ten `float(...)` values of a `MassProperties`,
rendered by `str`. -/
def massRow (mp : MassProperties) : List String :=
  [pyFloatStr mp.mass, pyFloatStr mp.center_of_gravity.x, pyFloatStr mp.center_of_gravity.y,
   pyFloatStr mp.center_of_gravity.z, pyFloatStr mp.moments_of_inertia.x,
   pyFloatStr mp.moments_of_inertia.y, pyFloatStr mp.moments_of_inertia.z,
   pyFloatStr mp.products_of_inertia.xy, pyFloatStr mp.products_of_inertia.xz,
   pyFloatStr mp.products_of_inertia.yz]

/-- Source `MassInput.to_mass`: the unit preamble, optional `g`/`rho` lines, then
the column-aligned mass table (`col_widths` from the rendered cell lengths,
every column but the first widened by two). -/
def MassInput.to_mass (m : MassInput) : String :=
  let preamble :=
    ["# length unit in meters", "Lunit = " ++ pyFloatStr m.length_unit_meters ++ " m", "",
     "# mass unit in kilograms", "Munit = " ++ pyFloatStr m.mass_unit_kilograms ++ " kg", "",
     "# time unit in seconds", "Tunit = " ++ pyFloatStr m.time_unit_seconds ++ " s", ""] ++
    (match m.gravitational_acceleration with
     | some g => ["# gravitational acceleration", "g = " ++ pyFloatStr (pyRound3 g), ""]
     | none => []) ++
    (match m.air_density with
     | some rho => ["# air density", "rho = " ++ pyFloatStr (pyRound3 rho), ""]
     | none => [])
  let data := m.mass_properties_array.map massRow
  let widths :=
    match (List.transpose (massHeaders :: data)).map
        (fun col => (col.map String.length).foldl max 0) with
    | [] => []
    | w :: ws => w :: ws.map (· + 2)
  let table :=
    (massHeaders :: data).map fun row =>
      String.intercalate " " (List.zipWith padLeftStr widths row)
  String.intercalate "\n" (preamble ++ table)

/-! ## The AVL command scripts (`services/avl/main.py`)

`AvlService.get_wing_coefficients` builds its command list from string
literals and one f-string per angle; a command is modelled as a token of an
inductive type carrying the angle payload, so that the script's structure
can be compared exactly. -/

/-- One line of the command script piped to AVL's standard input. -/
inductive AvlCmd : Type
  | oper
  /-- Source `f"A A {v}"`: select the alpha variable and constrain it to `v`. -/
  | alphaSet (v : ℚ)
  /-- Source `"X"`: execute the solve. -/
  | execute
  /-- Source `f"FT {path}"`: write the total forces to the (fixed) results file. -/
  | forceTotals
  /-- The bare `"A"` line. -/
  | aLine
  /-- Source `f"C1"` then `f"B {angle}"`: the level-turn trim menu (distribution runs). -/
  | c1
  | bank (v : ℚ)
  /-- Source `f"FS {path}"`: write the strip forces to the (fixed) results file. -/
  | forceStrip
  | blank
  | quit
  deriving DecidableEq, Repr

/-- The loop of `get_wing_coefficients` (lines 103–110): for each angle,
emit `A A v`, `X`, `FT result`; from the second iteration on, the flag
`append` is true and a bare `A` is appended after the `FT` line. -/
def polarLoop (append : Bool) : List ℚ → List AvlCmd
  | [] => []
  | v :: vs =>
    ([.alphaSet v, .execute, .forceTotals] ++ (if append then [.aLine] else [])) ++
      polarLoop true vs

/-- The full polar-sweep command script (lines 102–111): `OPER`, the loop,
a blank line, `QUIT`. -/
def polarCommands (alpha : List ℚ) : List AvlCmd :=
  [.oper] ++ polarLoop false alpha ++ [.blank, .quit]

/-- The command script the specification describes (modelled from the spec):
operating-point menu, then for each angle set/solve/append, re-entering the
angle sub-menu (a bare `A` line) *before* each repetition after the first
pass, then quit. -/
def specPolarCommands (alpha : List ℚ) : List AvlCmd :=
  [.oper] ++
    (match alpha with
     | [] => []
     | v :: vs =>
       [.alphaSet v, .execute, .forceTotals] ++
         vs.flatMap fun u => [.aLine, .alphaSet u, .execute, .forceTotals]) ++
    [.blank, .quit]

/-- The fixed single-condition script of
`get_wing_lift_coefficient_distribution` (lines 180–191). -/
def distributionCommands (alpha bank_angle : ℚ) : List AvlCmd :=
  [.oper, .alphaSet alpha, .execute, .c1, .bank bank_angle, .blank, .execute,
   .forceStrip, .blank, .quit]

/-- The `alpha` argument of `get_wing_coefficients`:
`list[float] | tuple[float, float, float]`. -/
inductive AlphaSpec : Type
  | list (l : List ℚ)
  | range (start stop step : ℚ)
  deriving DecidableEq, Repr

/-- Lines 104–105: a tuple `(start, end, increment)` is replaced by
`np.arange(start, end + 1, increment)`; a list is used as given. -/
def sweptAngles : AlphaSpec → List ℚ
  | .list l => l
  | .range s e inc => arangeQ s (e + 1) inc

/-! ## The polar results-file parser (lines 113–131)

The source extracts, with one `re.DOTALL` `findall`, every block
`Alpha\s*=\s*([-0-9.]+).*?CLtot\s*=\s*([-0-9.]+).*?CDtot\s*=\s*([-0-9.]+).*?Cmtot\s*=\s*([-0-9.]+)`
from the results file.  For this pattern the backtracking search is
deterministic: the scan tries each position left to right, a `\s*=` cannot
give back characters (`=` is not whitespace), a greedy `[-0-9.]+` capture is
always followed by `.*?` (or the pattern end), and each `.*?KEY` takes the
nearest occurrence of `KEY` whose suffix matches.  `findallAux` implements
exactly that search; matches are collected in file order, non-overlapping. -/

/-- Python `\s` (the report only ever contains the first four). -/
def isSpaceC (c : Char) : Bool :=
  c == ' ' || c == '\t' || c == '\n' || c == '\r' || c == '\x0b' || c == '\x0c'

/-- The character class `[-0-9.]`. -/
def isNumC (c : Char) : Bool :=
  c == '-' || c == '.' || c.isDigit

/-- Strip a literal prefix, returning the remainder. -/
def stripLit : List Char → List Char → Option (List Char)
  | [], cs => some cs
  | _, [] => none
  | l :: ls, c :: cs => if c = l then stripLit ls cs else none

/-- Match `\s*=\s*([-0-9.]+)`: returns the capture and the remainder. -/
def matchEqNum (cs : List Char) : Option (List Char × List Char) :=
  match cs.dropWhile isSpaceC with
  | '=' :: cs2 =>
    let cs3 := cs2.dropWhile isSpaceC
    let cap := cs3.takeWhile isNumC
    if cap.isEmpty then none else some (cap, cs3.dropWhile isNumC)
  | _ => none

/-- Match `.*?KEY\s*=\s*([-0-9.]+)` non-greedily: take the nearest position
where `KEY` and the equals-number suffix both match. -/
def scanKey (key : List Char) : List Char → Option (List Char × List Char)
  | [] => none
  | c :: cs =>
    match (stripLit key (c :: cs)).bind matchEqNum with
    | some r => some r
    | none => scanKey key cs

/-- Try the whole pattern anchored at the current position: literal `Alpha`,
then the four equals-number groups separated by non-greedy gaps.  Returns
the four captures and the remainder after the match. -/
def matchQuad (cs : List Char) : Option ((List Char × List Char × List Char × List Char) × List Char) := do
  let rest ← stripLit ("Alpha".data) cs
  let (a, r1) ← matchEqNum rest
  let (cl, r2) ← scanKey ("CLtot".data) r1
  let (cd, r3) ← scanKey ("CDtot".data) r2
  let (cm, r4) ← scanKey ("Cmtot".data) r3
  some ((a, cl, cd, cm), r4)

/-- The `findall` scan: try the pattern at each position left to right; on a
match, continue after it (non-overlapping); otherwise advance one character.
The fuel (the text length) dominates both recursions. -/
def findallAux : Nat → List Char → List (List Char × List Char × List Char × List Char)
  | 0, _ => []
  | _ + 1, [] => []
  | fuel + 1, c :: cs =>
    match matchQuad (c :: cs) with
    | some (q, rest) => q :: findallAux fuel rest
    | none => findallAux fuel cs

/-- Source `pattern.findall(content)`: the captured quadruples, in file order. -/
def findallPolar (content : String) : List (String × String × String × String) :=
  (findallAux content.data.length content.data).map fun q =>
    (String.mk q.1, String.mk q.2.1, String.mk q.2.2.1, String.mk q.2.2.2)

/-- The numeric value of a digit string. -/
def digitsVal (cs : List Char) : ℕ :=
  cs.foldl (fun acc c => acc * 10 + (c.toNat - 48)) 0

/-- Source `float(s)` on a string drawn from the capture class `[-0-9.]+`:
succeeds exactly on an optional leading minus followed by digits with at
most one decimal point and at least one digit (`"5"`, `"5."`, `".5"`,
`"-0.1"`); anything else the class admits (`"-"`, `"."`, `"1.2.3"`,
`"1-2"`) raises `ValueError`. -/
def parseFloatE (s : String) : Except PyErr ℚ :=
  let (sgn, cs) := match s.data with
    | '-' :: rest => ((-1 : ℤ), rest)
    | cs => ((1 : ℤ), cs)
  let ip := cs.takeWhile Char.isDigit
  let rest := cs.dropWhile Char.isDigit
  match rest with
  | [] =>
    if ip.isEmpty then .error .valueError
    else .ok (mkRat (sgn * (digitsVal ip : ℤ)) 1)
  | '.' :: rest2 =>
    let fp := rest2.takeWhile Char.isDigit
    if (rest2.dropWhile Char.isDigit).isEmpty && !(ip.isEmpty && fp.isEmpty) then
      .ok (mkRat (sgn * ((digitsVal ip * 10 ^ fp.length + digitsVal fp : ℕ) : ℤ))
        (10 ^ fp.length))
    else .error .valueError
  | _ => .error .valueError

/-- Four-way zip, pairing the four converted columns back into rows. -/
def zip4 {α β γ δ : Type} : List α → List β → List γ → List δ → List (α × β × γ × δ)
  | a :: as, b :: bs, c :: cs, d :: ds => (a, b, c, d) :: zip4 as bs cs ds
  | _, _, _, _ => []

/-- Lines 122–127: the data dictionary of the `Coefficients` dataframe —
each capture column run through `pd.Series(column, dtype=float)`, which
raises `ValueError` on the first capture `float()` rejects; on success the
rows are the zipped columns, one per match, in match (file) order.  (This
step runs *before* the `os.remove` calls of the service.) -/
def polarRowsE (content : String) : Except PyErr (List CoefRow) := do
  let caps := findallPolar content
  let alphas ← mapExcept parseFloatE (caps.map fun q => q.1)
  let cls ← mapExcept parseFloatE (caps.map fun q => q.2.1)
  let cds ← mapExcept parseFloatE (caps.map fun q => q.2.2.1)
  let cms ← mapExcept parseFloatE (caps.map fun q => q.2.2.2)
  pure ((zip4 alphas cls cds cms).map fun q => ⟨q.1, q.2.1, q.2.2.1, q.2.2.2⟩)

/-- A synthetic AVL results file with two well-formed total-forces blocks,
emitted out of angle order (5 before 0). -/
def demoPolarContent : String :=
  " Alpha =   5.00000     pb/2V  =   0.00000\n CLtot =   0.60000\n CDtot =   0.03000\n" ++
  " Cmtot =  -0.10000\n ---\n Alpha =   0.00000\n CLtot =   0.10000\n CDtot =   0.01000\n" ++
  " Cmtot =  -0.02000\n"

/-! ## The spanwise-distribution table (lines 198–214)

The two fixed-width sub-tables (one per mirrored half-wing pass) are read
into dataframes `df1`, `df2`; the returned table is
`concat([df1.Yle, df2.Yle], [df1.cl, df2.cl]).sort_values("spanwise_location")`.
The claims are about the concatenation-then-sort, so the model starts from
the two row lists; `sort_values` is modelled by a sort (insertion sort) on
the spanwise key — the verified properties (row multiset, sortedness) hold
for any sorting algorithm. -/

/-- One row of a `LiftCoefficientDistribution` dataframe. -/
structure DistRow : Type where
  spanwise_location : ℚ
  lift_coefficient : ℚ
  deriving DecidableEq, Repr

/-- The concatenation of the two sub-tables followed by
`sort_values("spanwise_location")`. -/
def liftDistributionRows (df1 df2 : List DistRow) : List DistRow :=
  List.insertionSort (fun a b => a.spanwise_location ≤ b.spanwise_location) (df1 ++ df2)

/-! ## The scratch-file choreography of `AvlService` (lines 31–130)

The service works in a fixed working directory with three fixed file names.
The file system is modelled as an association list from path to content;
the external solver binary is a parameter mapping the command script and the
file system before the run to the file system after it. -/

/-- A file system: paths with contents. -/
abbrev Fs := List (String × String)

/-- Look a file up. -/
def Fs.get (fs : Fs) (p : String) : Option String :=
  (fs.find? fun e => e.1 == p).map fun e => e.2

/-- Source `open(p, "w")` / `f.write`: create or truncate-and-replace (the binding
for `p` shadows any previous one). -/
def Fs.set (fs : Fs) (p c : String) : Fs :=
  (p, c) :: fs.filter fun e => !(e.1 == p)

/-- Source `os.remove(p)`: delete the file, raising `FileNotFoundError` when it
does not exist. -/
def Fs.removeE (fs : Fs) (p : String) : Except PyErr Fs :=
  if (fs.find? fun e => e.1 == p).isSome then
    .ok (fs.filter fun e => !(e.1 == p))
  else .error .fileNotFoundError

/-- Source `AVL_PATH` and the three fixed scratch-file paths of `AvlService`. -/
def AVL_PATH : String := "mdo_algorithm/softwares/avl"

/-- Source `self.__geometry_input_file_path`. -/
def geometryInputPath : String := AVL_PATH ++ "/input.avl"

/-- Source `self.__mass_input_file_path`. -/
def massInputPath : String := AVL_PATH ++ "/input.mass"

/-- Source `self.__result_file_path`. -/
def resultFilePath : String := AVL_PATH ++ "/result.txt"

/-- The external `avl.exe` process: from the command script on standard
input and the files on disk to the files on disk afterwards. -/
abbrev Solver := List AvlCmd → Fs → Fs

/-- Source `AvlService.run_avl`: raise `FileNotFoundError` when the geometry input
file does not exist, otherwise run the solver on the commands. -/
def runAvl (commands : List AvlCmd) (solver : Solver) (fs : Fs) : Except PyErr Fs :=
  if (Fs.get fs geometryInputPath).isSome then .ok (solver commands fs)
  else .error .fileNotFoundError

/-- Source `AvlService.get_wing_coefficients`, as its effect on the file system and
its outcome.  Mirrors lines 85–131: `open(..., "w")` creates the geometry
file before `to_avl` runs (a serialization error leaves the created, empty
file behind); the mass file is written; `run_avl` executes the solver; the
results file is read (`FileNotFoundError` when the solver did not produce
it); the regex scan and the `pd.Series(column, dtype=float)` conversions of
lines 122–127 run next, *before* any cleanup, so a capture `float()` rejects
raises `ValueError` with all three scratch files still on disk; then the
three scratch files are removed one by one; finally the typed
`DataFrame[Coefficients]` constructor validates the frame — a report with no
matching blocks yields the empty data dictionary, whose frame has none of
the schema's columns, and pandera raises `SchemaError` (after the removes). -/
def getWingCoefficients (g : GeometryInput) (m : MassInput) (alpha : AlphaSpec)
    (solver : Solver) (fs : Fs) : Except PyErr (List CoefRow) × Fs :=
  let fs1 := Fs.set fs geometryInputPath ""
  match g.to_avl with
  | .error e => (.error e, fs1)
  | .ok gs =>
    let fs2 := Fs.set fs1 geometryInputPath gs
    let fs3 := Fs.set (Fs.set fs2 massInputPath "") massInputPath m.to_mass
    match runAvl (polarCommands (sweptAngles alpha)) solver fs3 with
    | .error e => (.error e, fs3)
    | .ok fs4 =>
      match Fs.get fs4 resultFilePath with
      | none => (.error .fileNotFoundError, fs4)
      | some content =>
        match polarRowsE content with
        | .error e => (.error e, fs4)
        | .ok rows =>
          match Fs.removeE fs4 geometryInputPath with
          | .error e => (.error e, fs4)
          | .ok fs5 =>
            match Fs.removeE fs5 massInputPath with
            | .error e => (.error e, fs5)
            | .ok fs6 =>
              match Fs.removeE fs6 resultFilePath with
              | .error e => (.error e, fs6)
              | .ok fs7 =>
                if rows.isEmpty then (.error .schemaError, fs7) else (.ok rows, fs7)

/-- A minimal geometry input (header only) whose serialization succeeds. -/
def demoGeometry : GeometryInput :=
  ⟨⟨"Plane", 0, .ignore, .ignore, 0, 1, 1, 2, ⟨0, 0, 0⟩, none⟩, [], []⟩

/-- A minimal mass input. -/
def demoMass : MassInput := ⟨1, 1, 1, none, none, []⟩

/-- A solver stub that writes the demo results file and touches nothing
else. -/
def demoSolver : Solver := fun _ fs => Fs.set fs resultFilePath demoPolarContent

/-- A results file whose `Cmtot` capture is the bare string `"-"` — admitted
by the capture class `[-0-9.]+` but rejected by `float()`. -/
def demoBadContent : String :=
  " Alpha =   5.0\n CLtot =   0.6\n CDtot =   0.03\n Cmtot =   -\n"

/-- A solver stub that writes the malformed results file. -/
def demoBadSolver : Solver := fun _ fs => Fs.set fs resultFilePath demoBadContent

/-- The trapezoid sum over adjacent breakpoints:
`Σ (1/2)(c_i + c_{i+1})(x_{i+1} - x_i)`. -/
noncomputable def trapSum (pl : List (ℝ × ℝ)) : ℝ :=
  ((adjacentPairs pl).map fun pq => (1 / 2) * (pq.1.2 + pq.2.2) * (pq.2.1 - pq.1.1)).sum

/-! ## Theorems -/

/-- The loop body from the second iteration on: each remaining angle
contributes `A A v`, `X`, `FT`, and then the bare `A` line. -/
theorem polarLoop_true_eq (vs : List ℚ) :
    polarLoop true vs = vs.flatMap fun u => [.alphaSet u, .execute, .forceTotals, .aLine] := by
  induction vs with
  | nil => rfl
  | cons v vs ih => simp [polarLoop, ih]

/-- Claim **C1, counterexample.**  For the two-angle sweep `[0, 1]` the script the
code builds differs from the script the claim describes: the code emits the
bare `A` line *after* the second pass's `FT` command (answering the
file-exists prompt of the results file), whereas the claim places it
*before* each repetition after the first pass. -/
theorem polar_commands_differ_from_claim :
    polarCommands [0, 1] ≠ specPolarCommands [0, 1] ∧
    polarCommands [0, 1] =
      [.oper, .alphaSet 0, .execute, .forceTotals,
       .alphaSet 1, .execute, .forceTotals, .aLine, .blank, .quit] ∧
    specPolarCommands [0, 1] =
      [.oper, .alphaSet 0, .execute, .forceTotals,
       .aLine, .alphaSet 1, .execute, .forceTotals, .blank, .quit] := by
  refine ⟨?_, rfl, rfl⟩
  decide

/-- Claim **C1, amended.**  The polar-sweep script is: `OPER`; then the first
angle's `A A v`, `X`, `FT`; then, for every later angle, `A A v`, `X`, `FT`
*followed by* the bare `A` line (so the `A` also trails the final pass);
finally a blank line and `QUIT`. -/
theorem polar_commands_structure (v : ℚ) (vs : List ℚ) :
    polarCommands (v :: vs) =
      [.oper, .alphaSet v, .execute, .forceTotals] ++
        (vs.flatMap fun u => [.alphaSet u, .execute, .forceTotals, .aLine]) ++
        [.blank, .quit] := by
  simp [polarCommands, polarLoop, polarLoop_true_eq]

/-- Source `foldl max` returns an element of the list (or the seed). -/
theorem foldl_max_mem (v : ℚ) (vs : List ℚ) :
    vs.foldl max v = v ∨ vs.foldl max v ∈ vs := by
  induction vs generalizing v with
  | nil => exact .inl rfl
  | cons u us ih =>
    rcases ih (max v u) with h | h
    · rcases max_choice v u with hm | hm
      · exact .inl (by rw [List.foldl_cons, h, hm])
      · exact .inr (by rw [List.foldl_cons, h, hm]; exact List.mem_cons_self u us)
    · exact .inr (List.mem_cons_of_mem u h)

/-- Source `foldl max` dominates the seed and every element. -/
theorem foldl_max_ge (v : ℚ) (vs : List ℚ) :
    v ≤ vs.foldl max v ∧ ∀ u ∈ vs, u ≤ vs.foldl max v := by
  induction vs generalizing v with
  | nil => exact ⟨le_refl v, by simp⟩
  | cons u us ih =>
    obtain ⟨h1, h2⟩ := ih (max v u)
    refine ⟨le_trans (le_max_left v u) h1, ?_⟩
    intro x hx
    rcases List.mem_cons.mp hx with rfl | hx
    · exact le_trans (le_max_right v x) h1
    · exact h2 x hx

/-- Claim **C7.**  `span` of a wing with at least one section is `2 ×` the
maximum spanwise coordinate (the doubled coordinate of some section that
dominates all the others); on a wing with no sections the `max()` call
raises (`ValueError`, the code's realisation of the specification's
`ConfigurationError`). -/
theorem span_spec (w : Wing) :
    (w.section_array = [] → w.span = .error .valueError) ∧
    (w.section_array ≠ [] →
      ∃ s ∈ w.section_array, w.span = .ok (2 * s.location.y) ∧
        ∀ t ∈ w.section_array, t.location.y ≤ s.location.y) := by
  constructor
  · intro h
    simp [Wing.span, h, listMax]
  · intro h
    match hsec : w.section_array with
    | [] => exact absurd hsec h
    | s0 :: rest =>
      set vs := rest.map fun s => s.location.y with hvs
      have hmem := foldl_max_mem s0.location.y vs
      have hge := foldl_max_ge s0.location.y vs
      have hspan : w.span = .ok (2 * vs.foldl max s0.location.y) := by
        simp [Wing.span, hsec, listMax, hvs]
      rcases hmem with hm | hm
      · refine ⟨s0, List.mem_cons_self s0 rest, by rw [hspan, hm], ?_⟩
        intro t ht
        rcases List.mem_cons.mp ht with rfl | ht
        · exact le_rfl
        · exact le_trans (hge.2 t.location.y (by rw [hvs]; exact List.mem_map_of_mem _ ht)) (le_of_eq hm)
      · obtain ⟨s, hs, hsy⟩ := List.mem_map.mp (hvs ▸ hm)
        refine ⟨s, List.mem_cons_of_mem s0 hs, by rw [hspan, hsy], ?_⟩
        intro t ht
        rcases List.mem_cons.mp ht with rfl | ht
        · exact hsy ▸ hge.1
        · exact hsy ▸ hge.2 t.location.y (by rw [hvs]; exact List.mem_map_of_mem _ ht)

/-- Claim **C7, witness.**  The two cases of `span_spec` at concrete wings. -/
theorem span_spec_witness :
    Wing.span ⟨[]⟩ = .error .valueError ∧
    ∃ s ∈ (⟨[⟨⟨0, 1, 0⟩, 2, 0, "a"⟩, ⟨⟨0, 3, 0⟩, 1, 0, "a"⟩]⟩ : Wing).section_array,
      Wing.span ⟨[⟨⟨0, 1, 0⟩, 2, 0, "a"⟩, ⟨⟨0, 3, 0⟩, 1, 0, "a"⟩]⟩ = .ok (2 * s.location.y) ∧
      ∀ t ∈ (⟨[⟨⟨0, 1, 0⟩, 2, 0, "a"⟩, ⟨⟨0, 3, 0⟩, 1, 0, "a"⟩]⟩ : Wing).section_array,
        t.location.y ≤ s.location.y :=
  ⟨(span_spec ⟨[]⟩).1 rfl,
   (span_spec ⟨[⟨⟨0, 1, 0⟩, 2, 0, "a"⟩, ⟨⟨0, 3, 0⟩, 1, 0, "a"⟩]⟩).2 (by decide)⟩

/-- Membership in `arangeQ`: exactly the grid points below the ceiling count. -/
theorem mem_arangeQ {x start stop step : ℚ} (hstep : step ≠ 0) :
    x ∈ arangeQ start stop step ↔
      ∃ k : ℕ, (k : ℤ) < ⌈(stop - start) / step⌉ ∧ x = start + (k : ℚ) * step := by
  rw [arangeQ, if_neg hstep]
  simp only [List.mem_map, List.mem_range]
  constructor
  · rintro ⟨k, hk, rfl⟩
    exact ⟨k, Int.lt_toNat.mp hk, rfl⟩
  · rintro ⟨k, hk, rfl⟩
    exact ⟨k, Int.lt_toNat.mpr hk, rfl⟩

/-- Claim **C10.**  With a `(start, end, increment)` tuple the swept angles are
exactly `numpy.arange(start, end + 1, increment)`; for positive increments
every swept angle is strictly below `end + 1`; the concrete instances show
that an increment greater than 1 can skip the stated end angle (no angle of
`(0, 4, 3)` equals 4) and that a fractional increment sweeps angles strictly
beyond the stated end (the sweep of `(0, 1, 0.4)` contains 1.2). -/
theorem swept_angles_spec (s e inc : ℚ) (hpos : 0 < inc) :
    sweptAngles (.range s e inc) = arangeQ s (e + 1) inc ∧
    (∀ x ∈ sweptAngles (.range s e inc), x < e + 1) ∧
    (4 : ℚ) ∉ sweptAngles (.range 0 4 3) ∧
    ((6 / 5 : ℚ) ∈ sweptAngles (.range 0 1 (2 / 5)) ∧ (1 : ℚ) < 6 / 5) := by
  refine ⟨rfl, ?_, ?_, ?_, by norm_num⟩
  · intro x hx
    rw [sweptAngles] at hx
    obtain ⟨k, hk, rfl⟩ := (mem_arangeQ (ne_of_gt hpos)).mp hx
    have hlt : ((k : ℤ) : ℚ) < (e + 1 - s) / inc := Int.lt_ceil.mp hk
    have : (k : ℚ) * inc < e + 1 - s := by
      rw [div_eq_mul_inv] at hlt
      calc (k : ℚ) * inc = ((k : ℤ) : ℚ) * inc := by push_cast; ring
        _ < ((e + 1 - s) * inc⁻¹) * inc := by
            exact mul_lt_mul_of_pos_right hlt hpos
        _ = e + 1 - s := by field_simp
    linarith
  · intro hmem
    rw [sweptAngles] at hmem
    obtain ⟨k, hk, hx⟩ := (mem_arangeQ (by norm_num : (3 : ℚ) ≠ 0)).mp hmem
    have hceil : ⌈((4 : ℚ) + 1 - 0) / 3⌉ = 2 := by
      rw [Int.ceil_eq_iff]
      norm_num
    rw [hceil] at hk
    have hk2 : k < 2 := by exact_mod_cast hk
    interval_cases k <;> norm_num at hx
  · rw [sweptAngles, mem_arangeQ (by norm_num : (2 / 5 : ℚ) ≠ 0)]
    refine ⟨3, ?_, by norm_num⟩
    norm_num

/-- Claim **C10, witness.**  `swept_angles_spec` at the concrete increment `2/5`:
every swept angle of `(0, 1, 0.4)` is below 2. -/
theorem swept_angles_spec_witness :
    (∀ x ∈ sweptAngles (.range 0 1 (2 / 5)), x < 1 + 1) ∧
    (6 / 5 : ℚ) ∈ sweptAngles (.range 0 1 (2 / 5)) :=
  ⟨(swept_angles_spec 0 1 (2 / 5) (by norm_num)).2.1,
   (swept_angles_spec 0 1 (2 / 5) (by norm_num)).2.2.2.1⟩

/-- Source `firstMinBy` succeeds exactly on non-empty lists, its result is a member,
and it attains the minimum. -/
theorem firstMinBy_spec {α : Type} (f : α → ℚ) (l : List α) (hne : l ≠ []) :
    ∃ m, firstMinBy f l = some m ∧ m ∈ l ∧ ∀ r ∈ l, f m ≤ f r := by
  induction l with
  | nil => exact absurd rfl hne
  | cons a as ih =>
    by_cases has : as = []
    · subst has
      exact ⟨a, rfl, List.mem_cons_self a [], by simp⟩
    · obtain ⟨m, hm, hmem, hmin⟩ := ih has
      by_cases hle : f a ≤ f m
      · refine ⟨a, ?_, List.mem_cons_self a as, ?_⟩
        · simp [firstMinBy, hm, hle]
        · intro r hr
          rcases List.mem_cons.mp hr with rfl | hr
          · exact le_rfl
          · exact le_trans hle (hmin r hr)
      · refine ⟨m, ?_, List.mem_cons_of_mem a hmem, ?_⟩
        · simp [firstMinBy, hm, hle]
        · intro r hr
          rcases List.mem_cons.mp hr with rfl | hr
          · exact le_of_not_le hle
          · exact hmin r hr

/-- Source `firstMaxBy` succeeds exactly on non-empty lists, its result is a member,
and it attains the maximum. -/
theorem firstMaxBy_spec {α : Type} (f : α → ℚ) (l : List α) (hne : l ≠ []) :
    ∃ m, firstMaxBy f l = some m ∧ m ∈ l ∧ ∀ r ∈ l, f r ≤ f m := by
  induction l with
  | nil => exact absurd rfl hne
  | cons a as ih =>
    by_cases has : as = []
    · subst has
      exact ⟨a, rfl, List.mem_cons_self a [], by simp⟩
    · obtain ⟨m, hm, hmem, hmax⟩ := ih has
      by_cases hle : f m ≤ f a
      · refine ⟨a, ?_, List.mem_cons_self a as, ?_⟩
        · simp [firstMaxBy, hm, hle]
        · intro r hr
          rcases List.mem_cons.mp hr with rfl | hr
          · exact le_rfl
          · exact le_trans (hmax r hr) hle
      · refine ⟨m, ?_, List.mem_cons_of_mem a hmem, ?_⟩
        · simp [firstMaxBy, hm, hle]
        · intro r hr
          rcases List.mem_cons.mp hr with rfl | hr
          · exact le_of_not_le hle
          · exact hmax r hr

/-- Source `find?` on a split list whose prefix has no hit returns the splitting
element when it matches. -/
theorem find?_append_first {α : Type} (p : α → Bool) (pre : List α) (r0 : α) (post : List α)
    (hpre : ∀ r ∈ pre, p r = false) (h0 : p r0 = true) :
    (pre ++ r0 :: post).find? p = some r0 := by
  induction pre with
  | nil => simp [List.find?_cons, h0]
  | cons q qs ih =>
    have hq : p q = false := hpre q (List.mem_cons_self q qs)
    simp only [List.cons_append, List.find?_cons, hq]
    exact ih fun r hr => hpre r (List.mem_cons_of_mem q hr)

/-- Claim **C9, counterexample.**  On the empty coefficient table — which has no
row with `alpha == 0` — the lookup that fails is not the zero-incidence one:
pandas' `idxmin` on the empty lift column raises `ValueError` first, so the
call does not raise `IndexError`. -/
theorem from_xfoil_empty_not_index_error :
    ProfileDragSettings.from_xfoil_coefficients [] = .error .valueError ∧
    ProfileDragSettings.from_xfoil_coefficients [] ≠ .error .indexError := by
  decide

/-- Claim **C9, amended.**  On a *non-empty* table: if no row has `alpha` exactly
`0`, the zero-incidence lookup raises `IndexError`; if the first zero-alpha
row is `r0`, the call succeeds with breakpoints `(cl, cd)` taken at a
minimum-lift row, at `r0`, and at a maximum-lift row.  (On the empty table
the earlier `idxmin` lookup raises `ValueError` instead — see the
counterexample.) -/
theorem from_xfoil_spec (rows : List CoefRow) (hne : rows ≠ []) :
    ((∀ r ∈ rows, r.alpha ≠ 0) →
      ProfileDragSettings.from_xfoil_coefficients rows = .error .indexError) ∧
    (∀ pre r0 post, rows = pre ++ r0 :: post → r0.alpha = 0 → (∀ r ∈ pre, r.alpha ≠ 0) →
      ∃ rmin rmax, rmin ∈ rows ∧ rmax ∈ rows ∧
        (∀ r ∈ rows, rmin.lift_coefficient ≤ r.lift_coefficient) ∧
        (∀ r ∈ rows, r.lift_coefficient ≤ rmax.lift_coefficient) ∧
        ProfileDragSettings.from_xfoil_coefficients rows =
          .ok ⟨rmin.lift_coefficient, rmin.drag_coefficient, r0.lift_coefficient,
            r0.drag_coefficient, rmax.lift_coefficient, rmax.drag_coefficient⟩) := by
  obtain ⟨rmin, hmin, hminmem, hminle⟩ := firstMinBy_spec (fun r => r.lift_coefficient) rows hne
  constructor
  · intro hzero
    have hfind : rows.find? (fun r => r.alpha == 0) = none := by
      rw [List.find?_eq_none]
      intro r hr
      simpa using hzero r hr
    rw [ProfileDragSettings.from_xfoil_coefficients, hmin, hfind]
  · intro pre r0 post hsplit h0 hpre
    obtain ⟨rmax, hmax, hmaxmem, hmaxge⟩ := firstMaxBy_spec (fun r => r.lift_coefficient) rows hne
    have hfind : rows.find? (fun r => r.alpha == 0) = some r0 := by
      rw [hsplit]
      exact find?_append_first _ pre r0 post
        (fun r hr => by simpa using hpre r hr) (by simpa using h0)
    refine ⟨rmin, rmax, hminmem, hmaxmem, hminle, hmaxge, ?_⟩
    rw [ProfileDragSettings.from_xfoil_coefficients, hmin, hfind, hmax]

/-- Claim **C9, witness.**  `from_xfoil_spec` at concrete tables: a one-row table
with `alpha = 1` raises `IndexError`; a three-row table with a zero-alpha
row yields the min/zero/max breakpoints. -/
theorem from_xfoil_spec_witness :
    ProfileDragSettings.from_xfoil_coefficients [⟨1, 1, 2, 0⟩] = .error .indexError ∧
    ∃ rmin rmax,
      rmin ∈ [(⟨0, 1, 2, 0⟩ : CoefRow), ⟨-1, -2, 3, 0⟩, ⟨1, 4, 5, 0⟩] ∧
      rmax ∈ [(⟨0, 1, 2, 0⟩ : CoefRow), ⟨-1, -2, 3, 0⟩, ⟨1, 4, 5, 0⟩] ∧
      (∀ r ∈ [(⟨0, 1, 2, 0⟩ : CoefRow), ⟨-1, -2, 3, 0⟩, ⟨1, 4, 5, 0⟩],
        rmin.lift_coefficient ≤ r.lift_coefficient) ∧
      (∀ r ∈ [(⟨0, 1, 2, 0⟩ : CoefRow), ⟨-1, -2, 3, 0⟩, ⟨1, 4, 5, 0⟩],
        r.lift_coefficient ≤ rmax.lift_coefficient) ∧
      ProfileDragSettings.from_xfoil_coefficients
          [(⟨0, 1, 2, 0⟩ : CoefRow), ⟨-1, -2, 3, 0⟩, ⟨1, 4, 5, 0⟩] =
        .ok ⟨rmin.lift_coefficient, rmin.drag_coefficient, 1, 2,
          rmax.lift_coefficient, rmax.drag_coefficient⟩ :=
  ⟨(from_xfoil_spec [⟨1, 1, 2, 0⟩] (by decide)).1 (by decide),
   (from_xfoil_spec [⟨0, 1, 2, 0⟩, ⟨-1, -2, 3, 0⟩, ⟨1, 4, 5, 0⟩] (by decide)).2
     [] ⟨0, 1, 2, 0⟩ [⟨-1, -2, 3, 0⟩, ⟨1, 4, 5, 0⟩] rfl rfl (by decide)⟩

/-- The absolute value of a rational is its numerator magnitude over its
denominator. -/
theorem abs_num_den (q : ℚ) : |q| = (q.num.natAbs : ℚ) / (q.den : ℚ) := by
  conv_lhs => rw [← Rat.num_div_den q]
  rw [abs_div]
  congr 1
  · rw [← Int.cast_abs, Int.abs_eq_natAbs]
    exact Int.cast_natCast _
  · exact abs_of_nonneg (by positivity)

/-- In the positional band `1e-4 ≤ |q| < 1e16` the integer branch conditions of
`pyFloatStr` are settled: the numerator is nonzero and neither threshold
fires. -/
theorem posBranch_conds (q : ℚ) (h1 : 1 / 10000 ≤ |q|) (h2 : |q| < 10 ^ 16) :
    q.num.natAbs ≠ 0 ∧ ¬ 10000 * q.num.natAbs < q.den ∧
      ¬ 10 ^ 16 * q.den ≤ q.num.natAbs := by
  have hden : (0 : ℚ) < (q.den : ℚ) := by exact_mod_cast q.den_pos
  refine ⟨?_, ?_, ?_⟩
  · intro h
    rw [abs_num_den, h] at h1
    simp only [Nat.cast_zero, zero_div] at h1
    norm_num at h1
  · intro hlt
    rw [abs_num_den, div_le_div_iff (by norm_num) hden, one_mul] at h1
    have hq : (10000 * q.num.natAbs : ℚ) < (q.den : ℚ) := by exact_mod_cast hlt
    rw [mul_comm] at hq
    linarith
  · intro hge
    rw [abs_num_den, div_lt_iff hden] at h2
    have hq : ((10 ^ 16 * q.den : ℕ) : ℚ) ≤ (q.num.natAbs : ℚ) := by exact_mod_cast hge
    push_cast at hq
    linarith

/-- In the positional band, `pyFloatStr` renders sign, integer part, `'.'`,
fractional digits. -/
theorem pyFloatStr_posBranch (q : ℚ) (h1 : 1 / 10000 ≤ |q|) (h2 : |q| < 10 ^ 16) :
    pyFloatStr q =
      (if q.num < 0 then "-" else "") ++ toString (q.num.natAbs / q.den) ++ "." ++
        (if q.num.natAbs % q.den = 0 then "0"
         else fracDigits 30 (q.num.natAbs % q.den) q.den) := by
  obtain ⟨h0, hA, hB⟩ := posBranch_conds q h1 h2
  unfold pyFloatStr
  rw [if_neg h0, if_neg (not_or.mpr ⟨hA, hB⟩)]

/-- Every `str(float(...))` rendering of a value in the positional band carries
a decimal point. -/
theorem hasDot_pyFloatStr (q : ℚ) (h1 : 1 / 10000 ≤ |q|) (h2 : |q| < 10 ^ 16) :
    hasDot (pyFloatStr q) := by
  rw [pyFloatStr_posBranch q h1 h2]
  unfold hasDot
  simp only [String.data_append]
  refine List.mem_append.mpr (.inl ?_)
  refine List.mem_append.mpr (.inr ?_)
  simp [String.data]

/-- Claim **C5, counterexample.**  The header of the geometry document renders the
`iYsym` symmetry flag — a numeric configuration value — through `str` of its
`IntEnum` value: the rendered field is `"1"`, with no fractional part. -/
theorem header_int_field_without_fraction :
    ∃ line ∈ Header.to_input_file
        ⟨"Plane", 0, .symmetric, .ignore, 0, 1, 1, 2, ⟨0, 0, 0⟩, none⟩,
      ∃ t ∈ line, t.isInt = true ∧ t.render = "1" ∧ ¬ hasDot t.render := by
  decide

/-- Claim **C5, amended.**  A *float*-typed field of the geometry document is
rendered through `str(float(...))`: whenever its magnitude lies in Python's
positional band (`1e-4 ≤ |x| < 1e16`) the rendering carries a fractional
part, with integer-valued quantities rendering as digits followed by `".0"`
(`0 ↦ "0.0"`, `1 ↦ "1.0"`); outside the band Python switches to exponent
notation, which carries no decimal point when the mantissa is a single digit
(`0.00005 ↦ "5e-05"`, `10^16 ↦ "1e+16"`).  Integer-typed fields (symmetry
flags, vortex counts) render as plain integers. -/
theorem float_fields_canonical :
    (∀ q : ℚ, 1 / 10000 ≤ |q| → |q| < 10 ^ 16 → hasDot (Tok.render (.num q))) ∧
    (∀ n : ℤ, n.natAbs < 10 ^ 16 →
      pyFloatStr (n : ℚ) = (if n < 0 then "-" else "") ++ toString n.natAbs ++ ".0") ∧
    pyFloatStr 0 = "0.0" ∧ pyFloatStr 1 = "1.0" ∧
    (pyFloatStr (mkRat 1 20000) = "5e-05" ∧ ¬ hasDot (pyFloatStr (mkRat 1 20000))) ∧
    (pyFloatStr (mkRat 10000000000000000 1) = "1e+16" ∧
      ¬ hasDot (pyFloatStr (mkRat 10000000000000000 1))) ∧
    (∀ h : Header, ∀ line ∈ Header.to_input_file h, ∀ t ∈ line, ∀ q : ℚ,
      t = .num q → 1 / 10000 ≤ |q| → |q| < 10 ^ 16 → hasDot t.render) ∧
    (∀ s : Section, ∀ line ∈ Section.to_input_file s, ∀ t ∈ line, ∀ q : ℚ,
      t = .num q → 1 / 10000 ≤ |q| → |q| < 10 ^ 16 → hasDot t.render) := by
  have hdot : ∀ q : ℚ, 1 / 10000 ≤ |q| → |q| < 10 ^ 16 → hasDot (Tok.render (.num q)) :=
    fun q h1 h2 => hasDot_pyFloatStr q h1 h2
  refine ⟨hdot, ?_, by decide, by decide, by decide, by decide,
    fun h line _ t _ q ht h1 h2 => by rw [ht]; exact hdot q h1 h2,
    fun s line _ t _ q ht h1 h2 => by rw [ht]; exact hdot q h1 h2⟩
  intro n hn
  have hden : ((n : ℚ)).den = 1 := Rat.den_intCast n
  have hnumc : ((n : ℚ)).num = n := Rat.num_intCast n
  by_cases h0 : n.natAbs = 0
  · have hz : n = 0 := Int.natAbs_eq_zero.mp h0
    subst hz
    unfold pyFloatStr
    rw [hden, hnumc]
    simp only [Int.natAbs_zero, reduceIte, Int.lt_irrefl]
    rfl
  · have hA : ¬ 10000 * n.natAbs < 1 := by omega
    have hB : ¬ 10 ^ 16 * 1 ≤ n.natAbs := by
      rw [mul_one]
      exact Nat.not_le.mpr hn
    unfold pyFloatStr
    rw [hden, hnumc]
    rw [if_neg h0, if_neg (not_or.mpr ⟨hA, hB⟩)]
    simp only [Nat.mod_one, Nat.div_one, if_pos, reduceIte]
    rw [String.append_assoc, show ("." ++ "0" : String) = ".0" from rfl]

/-- Claim **C5, witness.**  `float_fields_canonical` applied at concrete inputs:
the in-band integer 2 renders as `"2.0"`, and a half-unit float field
renders with a decimal point. -/
theorem float_fields_canonical_witness :
    pyFloatStr ((2 : ℤ) : ℚ) = "2.0" ∧
    hasDot (Tok.render (.num (mkRat 1 2))) := by
  constructor
  · have h := float_fields_canonical.2.1 2 (by decide)
    rw [h]
    rfl
  · exact float_fields_canonical.1 (mkRat 1 2)
      (by rw [Rat.mkRat_eq_div]; rw [abs_of_pos (by norm_num)]; norm_num)
      (by rw [Rat.mkRat_eq_div]; rw [abs_of_pos (by norm_num)]; norm_num)

/-! ### File-system lemmas -/

theorem find?_filter_ne (fs : Fs) (p q : String) (hne : q ≠ p) :
    (fs.filter fun e => !(e.1 == p)).find? (fun e => e.1 == q) =
      fs.find? (fun e => e.1 == q) := by
  induction fs with
  | nil => rfl
  | cons e es ih =>
    by_cases hp : e.1 = p
    · have h1 : (e.1 == p) = true := beq_iff_eq.mpr hp
      have h2 : (e.1 == q) = false :=
        beq_eq_false_iff_ne.mpr fun h => hne (by rw [← h, hp])
      simp [List.filter_cons, h1, List.find?_cons, h2, ih]
    · have h1 : (e.1 == p) = false := beq_eq_false_iff_ne.mpr hp
      by_cases hq : e.1 = q
      · have h2 : (e.1 == q) = true := beq_iff_eq.mpr hq
        simp [List.filter_cons, h1, List.find?_cons, h2]
      · have h2 : (e.1 == q) = false := beq_eq_false_iff_ne.mpr hq
        simp [List.filter_cons, h1, List.find?_cons, h2, ih]

theorem find?_filter_self (fs : Fs) (p : String) :
    (fs.filter fun e => !(e.1 == p)).find? (fun e => e.1 == p) = none := by
  rw [List.find?_eq_none]
  intro e he
  have := List.of_mem_filter he
  simpa using this

/-- Reading a just-written file yields the written content. -/
theorem Fs.get_set_self (fs : Fs) (p c : String) : Fs.get (Fs.set fs p c) p = some c := by
  simp [Fs.get, Fs.set, List.find?_cons]

/-- Writing does not disturb other paths. -/
theorem Fs.get_set_ne (fs : Fs) (p c q : String) (hne : q ≠ p) :
    Fs.get (Fs.set fs p c) q = Fs.get fs q := by
  have h : (p == q) = false := beq_eq_false_iff_ne.mpr fun h => hne h.symm
  simp only [Fs.get, Fs.set, List.find?_cons, h]
  rw [find?_filter_ne fs p q hne]

/-- Source `os.remove` on a present file: succeeds, the file is gone, other paths
are untouched. -/
theorem Fs.removeE_present (fs : Fs) (p c : String) (h : Fs.get fs p = some c) :
    Fs.removeE fs p = .ok (fs.filter fun e => !(e.1 == p)) ∧
    Fs.get (fs.filter fun e => !(e.1 == p)) p = none ∧
    ∀ q, q ≠ p → Fs.get (fs.filter fun e => !(e.1 == p)) q = Fs.get fs q := by
  have hsome : (fs.find? fun e => e.1 == p).isSome := by
    rcases hf : fs.find? fun e => e.1 == p with _ | e
    · rw [Fs.get, hf] at h; simp at h
    · rw [hf]; rfl
  refine ⟨by rw [Fs.removeE, if_pos hsome], ?_, ?_⟩
  · rw [Fs.get, find?_filter_self]
    rfl
  · intro q hq
    rw [Fs.get, find?_filter_ne fs p q hq, Fs.get]

/-! ### Serialization failure lemmas (mirrored surface/body without plane) -/

/-- Source `Surface.to_input_file` raises exactly when the surface is mirrored
without a mirror-plane location, and the exception is `ValueError`. -/
theorem surface_to_input_file_cases (s : Surface) :
    (s.mirror_surface = true ∧ s.xz_plane_location = none ∧
      s.to_input_file = .error .valueError) ∨
    ((s.mirror_surface = false ∨ s.xz_plane_location ≠ none) ∧
      ∃ ls, s.to_input_file = .ok ls) := by
  rcases hm : s.mirror_surface with _ | _
  · exact .inr ⟨.inl rfl, _, by rw [Surface.to_input_file, hm]; rfl⟩
  · rcases hx : s.xz_plane_location with _ | loc
    · exact .inl ⟨rfl, rfl, by rw [Surface.to_input_file, hm, hx]; rfl⟩
    · exact .inr ⟨.inr (by simp [hx]), _, by rw [Surface.to_input_file, hm, hx]; rfl⟩

/-- Same classification for `Body.to_input_file`. -/
theorem body_to_input_file_cases (b : Body) :
    (b.mirror_surface = true ∧ b.xz_plane_location = none ∧
      b.to_input_file = .error .valueError) ∨
    ((b.mirror_surface = false ∨ b.xz_plane_location ≠ none) ∧
      ∃ ls, b.to_input_file = .ok ls) := by
  rcases hm : b.mirror_surface with _ | _
  · exact .inr ⟨.inl rfl, _, by rw [Body.to_input_file, hm]; rfl⟩
  · rcases hx : b.xz_plane_location with _ | loc
    · exact .inl ⟨rfl, rfl, by rw [Body.to_input_file, hm, hx]; rfl⟩
    · exact .inr ⟨.inr (by simp [hx]), _, by rw [Body.to_input_file, hm, hx]; rfl⟩

/-- Source `mapExcept` succeeds when every element does. -/
theorem mapExcept_ok_of_forall {ε α β : Type} (f : α → Except ε β) (l : List α)
    (h : ∀ x ∈ l, ∃ b, f x = .ok b) : ∃ bs, mapExcept f l = .ok bs := by
  induction l with
  | nil => exact ⟨[], rfl⟩
  | cons a as ih =>
    obtain ⟨b, hb⟩ := h a (List.mem_cons_self a as)
    obtain ⟨bs, hbs⟩ := ih fun x hx => h x (List.mem_cons_of_mem a hx)
    exact ⟨b :: bs, by rw [mapExcept, hb, hbs]; rfl⟩

/-- Source `mapExcept` raises `E` when some element raises and every element can
only raise `E`. -/
theorem mapExcept_error {ε α β : Type} (f : α → Except ε β) (l : List α) (E : ε)
    (hall : ∀ x ∈ l, ∀ e, f x = .error e → e = E)
    (hex : ∃ x ∈ l, ∃ e, f x = .error e) : mapExcept f l = .error E := by
  induction l with
  | nil => obtain ⟨x, hx, _⟩ := hex; exact absurd hx (List.not_mem_nil x)
  | cons a as ih =>
    rcases ha : f a with e | b
    · have : e = E := hall a (List.mem_cons_self a as) e ha
      subst this
      rw [mapExcept, ha]
      rfl
    · obtain ⟨x, hx, e, he⟩ := hex
      have hxas : x ∈ as := by
        rcases List.mem_cons.mp hx with rfl | hxs
        · rw [ha] at he; exact absurd he (fun h => Except.noConfusion h)
        · exact hxs
      have htail : mapExcept f as = .error E :=
        ih (fun x hx => hall x (List.mem_cons_of_mem a hx)) ⟨x, hxas, e, he⟩
      rw [mapExcept, ha, htail]
      rfl

/-- Source `Surface.render` raises exactly what `to_input_file` raises. -/
theorem Surface.render_error_cases (s : Surface) :
    (s.mirror_surface = true ∧ s.xz_plane_location = none ∧
      s.render = .error .valueError) ∨
    ((s.mirror_surface = false ∨ s.xz_plane_location ≠ none) ∧
      ∃ str, s.render = .ok str) := by
  rcases surface_to_input_file_cases s with ⟨hm, hx, herr⟩ | ⟨hok, ls, hls⟩
  · exact .inl ⟨hm, hx, by rw [Surface.render, herr]; rfl⟩
  · exact .inr ⟨hok, _, by rw [Surface.render, hls]; rfl⟩

/-- A mirrored surface or body without its mirror-plane location makes
`to_avl` raise `ValueError`. -/
theorem to_avl_error_of_missing_plane (g : GeometryInput)
    (hbad :
      (∃ s ∈ g.surface_array, s.mirror_surface = true ∧ s.xz_plane_location = none) ∨
      (∃ b ∈ g.body_array, b.mirror_surface = true ∧ b.xz_plane_location = none)) :
    g.to_avl = .error .valueError := by
  have hsall : ∀ s ∈ g.surface_array, ∀ e, Surface.render s = .error e → e = .valueError := by
    intro s _ e he
    rcases Surface.render_error_cases s with ⟨_, _, h⟩ | ⟨_, str, h⟩
    · exact (Except.error.inj (h.symm.trans he)).symm
    · exact absurd (h.symm.trans he) (fun h => Except.noConfusion h)
  by_cases hsex : ∃ s ∈ g.surface_array, ∃ e, Surface.render s = .error e
  · have : mapExcept Surface.render g.surface_array = .error .valueError :=
      mapExcept_error _ _ _ hsall hsex
    rw [GeometryInput.to_avl, this]
    rfl
  · have hsok : ∀ s ∈ g.surface_array, ∃ str, Surface.render s = .ok str := by
      intro s hs
      rcases Surface.render_error_cases s with ⟨_, _, h⟩ | ⟨_, str, h⟩
      · exact absurd ⟨s, hs, _, h⟩ hsex
      · exact ⟨str, h⟩
    obtain ⟨ss, hss⟩ := mapExcept_ok_of_forall Surface.render g.surface_array hsok
    have hbadb : ∃ b ∈ g.body_array, b.mirror_surface = true ∧ b.xz_plane_location = none := by
      rcases hbad with ⟨s, hs, hm, hx⟩ | hb
      · rcases Surface.render_error_cases s with ⟨_, _, h⟩ | ⟨hok, _, _⟩
        · exact absurd ⟨s, hs, _, h⟩ hsex
        · rcases hok with h | h
          · rw [hm] at h; exact absurd h (by simp)
          · exact absurd hx h
      · exact hb
    obtain ⟨b, hbmem, hbm, hbx⟩ := hbadb
    have hberr : Body.to_input_file b = .error .valueError := by
      rcases body_to_input_file_cases b with ⟨_, _, h⟩ | ⟨hok, _, _⟩
      · exact h
      · rcases hok with h | h
        · rw [hbm] at h; exact absurd h (by simp)
        · exact absurd hbx h
    have hball : ∀ x ∈ g.body_array, ∀ e,
        (do
          let ls ← Body.to_input_file x
          pure (renderLines ls) : Except PyErr String) = .error e → e = .valueError := by
      intro x _ e he
      rcases body_to_input_file_cases x with ⟨_, _, h⟩ | ⟨_, ls, h⟩
      · rw [h] at he
        exact (Except.error.inj he).symm
      · rw [h] at he
        exact absurd he (fun h => Except.noConfusion h)
    have hbex : ∃ x ∈ g.body_array, ∃ e,
        (do
          let ls ← Body.to_input_file x
          pure (renderLines ls) : Except PyErr String) = .error e :=
      ⟨b, hbmem, .valueError, by rw [hberr]; rfl⟩
    have : mapExcept (fun x => do
        let ls ← Body.to_input_file x
        pure (renderLines ls)) g.body_array = .error (.valueError : PyErr) :=
      mapExcept_error _ _ _ hball hbex
    rw [GeometryInput.to_avl, hss, this]
    rfl

/-- Claim **C4, counterexample.**  Requesting serialization of a mirrored surface
without a mirror-plane location through the service *does* raise the
configuration `ValueError` — but a file has already been created on disk:
`open(path, "w")` runs before `to_avl`, so the geometry scratch file exists
(empty) when the call raises. -/
theorem mirrored_surface_creates_empty_file :
    (getWingCoefficients
        ⟨⟨"Plane", 0, .ignore, .ignore, 0, 1, 1, 2, ⟨0, 0, 0⟩, none⟩,
         [⟨"Wing", 12, 1, none, none, true, none, none, none, none,
           false, false, false, none, []⟩], []⟩
        ⟨1, 1, 1, none, none, []⟩ (.list [0]) (fun _ fs => fs) []).1 =
      .error .valueError ∧
    Fs.get (getWingCoefficients
        ⟨⟨"Plane", 0, .ignore, .ignore, 0, 1, 1, 2, ⟨0, 0, 0⟩, none⟩,
         [⟨"Wing", 12, 1, none, none, true, none, none, none, none,
           false, false, false, none, []⟩], []⟩
        ⟨1, 1, 1, none, none, []⟩ (.list [0]) (fun _ fs => fs) []).2
      geometryInputPath = some "" := by
  decide

/-- Claim **C4, amended.**  If a mirrored surface or body is requested without the
required mirror-plane location, the serialization raises the configuration
`ValueError` before any document content is produced: the geometry scratch
file — already created empty by the `open` call — is left on disk with no
content, and the mass file is never written. -/
theorem mirrored_surface_missing_plane (g : GeometryInput) (m : MassInput)
    (a : AlphaSpec) (sol : Solver) (fs : Fs)
    (hbad :
      (∃ s ∈ g.surface_array, s.mirror_surface = true ∧ s.xz_plane_location = none) ∨
      (∃ b ∈ g.body_array, b.mirror_surface = true ∧ b.xz_plane_location = none)) :
    getWingCoefficients g m a sol fs =
      (.error .valueError, Fs.set fs geometryInputPath "") ∧
    Fs.get (getWingCoefficients g m a sol fs).2 geometryInputPath = some "" ∧
    Fs.get (getWingCoefficients g m a sol fs).2 massInputPath = Fs.get fs massInputPath := by
  have herr := to_avl_error_of_missing_plane g hbad
  have hrun : getWingCoefficients g m a sol fs =
      (.error .valueError, Fs.set fs geometryInputPath "") := by
    rw [getWingCoefficients, herr]
  refine ⟨hrun, ?_, ?_⟩
  · rw [hrun]
    exact Fs.get_set_self fs geometryInputPath ""
  · rw [hrun]
    exact Fs.get_set_ne fs geometryInputPath "" massInputPath (by decide)

/-- Claim **C4, witness.**  `mirrored_surface_missing_plane` at the concrete
mirrored body without a plane location. -/
theorem mirrored_surface_missing_plane_witness :
    getWingCoefficients
        ⟨⟨"P", 0, .ignore, .ignore, 0, 1, 1, 2, ⟨0, 0, 0⟩, none⟩, [],
         [⟨"Fuselage", 10, 1, true, none, none, none⟩]⟩
        ⟨1, 1, 1, none, none, []⟩ (.list [0]) (fun _ fs => fs) [] =
      (.error .valueError, Fs.set [] geometryInputPath "") :=
  (mirrored_surface_missing_plane
      ⟨⟨"P", 0, .ignore, .ignore, 0, 1, 1, 2, ⟨0, 0, 0⟩, none⟩, [],
       [⟨"Fuselage", 10, 1, true, none, none, none⟩]⟩
      ⟨1, 1, 1, none, none, []⟩ (.list [0]) (fun _ fs => fs) []
      (.inr ⟨⟨"Fuselage", 10, 1, true, none, none, none⟩, by decide, rfl, rfl⟩)).1

set_option maxRecDepth 40000 in
/-- The regex scan and float conversion evaluated on `demoPolarContent`: both
blocks convert, in file order. -/
theorem demoPolarContent_rows :
    polarRowsE demoPolarContent =
      .ok [⟨5, mkRat 3 5, mkRat 3 100, mkRat (-1) 10⟩,
           ⟨0, mkRat 1 10, mkRat 1 100, mkRat (-1) 50⟩] := by
  decide

set_option maxRecDepth 40000 in
/-- The malformed report: the scan matches, but the `Cmtot` capture `"-"` fails
float conversion and the column conversion raises `ValueError`. -/
theorem demoBadContent_err : polarRowsE demoBadContent = .error .valueError := by
  decide

/-- Claim **C3, counterexample.**  A results file whose total-forces blocks appear
at angles 5 then 0 parses into a polar table whose rows keep that order: the
polar parser performs no sort, so the returned `CoefficientTable` is *not*
ascending in angle of attack. -/
theorem polar_rows_not_sorted :
    polarRowsE demoPolarContent =
      .ok [⟨5, mkRat 3 5, mkRat 3 100, mkRat (-1) 10⟩,
           ⟨0, mkRat 1 10, mkRat 1 100, mkRat (-1) 50⟩] ∧
    Except.map (List.map CoefRow.alpha) (polarRowsE demoPolarContent) = .ok [5, 0] ∧
    ¬ List.Pairwise (fun a b => a.alpha ≤ b.alpha)
        [(⟨5, mkRat 3 5, mkRat 3 100, mkRat (-1) 10⟩ : CoefRow),
         ⟨0, mkRat 1 10, mkRat 1 100, mkRat (-1) 50⟩] := by
  refine ⟨demoPolarContent_rows, ?_, ?_⟩
  · rw [demoPolarContent_rows]
    decide
  · intro h
    have := List.rel_of_pairwise_cons h (List.mem_cons_self _ _)
    exact absurd this (by decide)

/-- Claim **C3, amended.**  The spanwise-distribution table is sorted after
parsing: concatenating the two strip-forces sub-tables and sorting yields a
table that is a permutation of the concatenation and is non-decreasing in
spanwise location, even when the sub-tables overlap.  The polar table is
*not* re-sorted: its rows (when every captured field converts to float) stay
in the order the report emitted them (the concrete out-of-order report
parses with angle column `[5, 0]`). -/
theorem distribution_rows_sorted (df1 df2 : List DistRow) :
    (liftDistributionRows df1 df2).Pairwise
      (fun a b => a.spanwise_location ≤ b.spanwise_location) ∧
    (liftDistributionRows df1 df2).Perm (df1 ++ df2) ∧
    Except.map (List.map CoefRow.alpha) (polarRowsE demoPolarContent) = .ok [5, 0] := by
  haveI : IsTotal DistRow (fun a b => a.spanwise_location ≤ b.spanwise_location) :=
    ⟨fun a b => le_total a.spanwise_location b.spanwise_location⟩
  haveI : IsTrans DistRow (fun a b => a.spanwise_location ≤ b.spanwise_location) :=
    ⟨fun _ _ _ hab hbc => le_trans hab hbc⟩
  refine ⟨List.sorted_insertionSort _ _, List.perm_insertionSort _ _, ?_⟩
  rw [demoPolarContent_rows]
  decide

/-- Claim **C2, counterexample.**  A solver run that produces no results file
(here: a solver that does nothing) makes `get_wing_coefficients` raise
`FileNotFoundError` at the `open` of the results file — and the geometry and
mass scratch files it created beforehand are still on disk when the call
raises: cleanup is plain straight-line `os.remove` after the read, not
structured cleanup on every exit path. -/
theorem solver_failure_orphans_scratch_files :
    (getWingCoefficients ⟨⟨"Plane", 0, .ignore, .ignore, 0, 1, 1, 2, ⟨0, 0, 0⟩, none⟩, [], []⟩
        ⟨1, 1, 1, none, none, []⟩ (.list [0]) (fun _ fs => fs) []).1 =
      .error .fileNotFoundError ∧
    (Fs.get (getWingCoefficients
        ⟨⟨"Plane", 0, .ignore, .ignore, 0, 1, 1, 2, ⟨0, 0, 0⟩, none⟩, [], []⟩
        ⟨1, 1, 1, none, none, []⟩ (.list [0]) (fun _ fs => fs) []).2
      geometryInputPath).isSome = true ∧
    (Fs.get (getWingCoefficients
        ⟨⟨"Plane", 0, .ignore, .ignore, 0, 1, 1, 2, ⟨0, 0, 0⟩, none⟩, [], []⟩
        ⟨1, 1, 1, none, none, []⟩ (.list [0]) (fun _ fs => fs) []).2
      massInputPath).isSome = true := by
  decide

/-- Claim **C2, amended.**  The scratch files are created, with their contents,
before the solver runs.  The parsed table is returned with all three scratch
files removed only when the results file is present, every captured field
converts to float, and at least one block matched.  When a capture fails
float conversion the `pd.Series(..., dtype=float)` step raises `ValueError`
*before* the removes, orphaning all three scratch files.  When the report
contains no matching block the removes do run, but the typed-dataframe
validation of the empty frame then raises `SchemaError`.  When the solver
produces no results file the call raises `FileNotFoundError` and performs
no cleanup: the input files remain exactly as the solver run left them. -/
theorem scratch_file_lifecycle (g : GeometryInput) (m : MassInput) (a : AlphaSpec)
    (sol : Solver) (fs : Fs) (gs : String) (fs3 fs4 : Fs)
    (hg : g.to_avl = .ok gs)
    (hfs3 : fs3 = Fs.set (Fs.set (Fs.set (Fs.set fs geometryInputPath "")
      geometryInputPath gs) massInputPath "") massInputPath m.to_mass)
    (hfs4 : fs4 = sol (polarCommands (sweptAngles a)) fs3) :
    (Fs.get fs3 geometryInputPath = some gs ∧ Fs.get fs3 massInputPath = some m.to_mass) ∧
    (∀ content rows cg cm, Fs.get fs4 resultFilePath = some content →
      polarRowsE content = .ok rows → rows ≠ [] →
      Fs.get fs4 geometryInputPath = some cg → Fs.get fs4 massInputPath = some cm →
      (getWingCoefficients g m a sol fs).1 = .ok rows ∧
      Fs.get (getWingCoefficients g m a sol fs).2 geometryInputPath = none ∧
      Fs.get (getWingCoefficients g m a sol fs).2 massInputPath = none ∧
      Fs.get (getWingCoefficients g m a sol fs).2 resultFilePath = none) ∧
    (∀ content e, Fs.get fs4 resultFilePath = some content →
      polarRowsE content = .error e →
      getWingCoefficients g m a sol fs = (.error e, fs4)) ∧
    (∀ content cg cm, Fs.get fs4 resultFilePath = some content →
      polarRowsE content = .ok [] →
      Fs.get fs4 geometryInputPath = some cg → Fs.get fs4 massInputPath = some cm →
      (getWingCoefficients g m a sol fs).1 = .error .schemaError ∧
      Fs.get (getWingCoefficients g m a sol fs).2 geometryInputPath = none ∧
      Fs.get (getWingCoefficients g m a sol fs).2 massInputPath = none ∧
      Fs.get (getWingCoefficients g m a sol fs).2 resultFilePath = none) ∧
    (Fs.get fs4 resultFilePath = none →
      getWingCoefficients g m a sol fs = (.error .fileNotFoundError, fs4)) := by
  have hmg : massInputPath ≠ geometryInputPath := by decide
  have hrg : resultFilePath ≠ geometryInputPath := by decide
  have hrm : resultFilePath ≠ massInputPath := by decide
  have hgm : geometryInputPath ≠ massInputPath := by decide
  have hget3g : Fs.get fs3 geometryInputPath = some gs := by
    rw [hfs3, Fs.get_set_ne _ massInputPath m.to_mass geometryInputPath hgm,
      Fs.get_set_ne _ massInputPath "" geometryInputPath hgm, Fs.get_set_self]
  have hget3m : Fs.get fs3 massInputPath = some m.to_mass := by
    rw [hfs3, Fs.get_set_self]
  have hrunAvl : runAvl (polarCommands (sweptAngles a)) sol fs3 = .ok fs4 := by
    rw [runAvl, if_pos (by rw [hget3g]; rfl), hfs4]
  have hunfold : getWingCoefficients g m a sol fs =
      (match Fs.get fs4 resultFilePath with
       | none => (.error .fileNotFoundError, fs4)
       | some content =>
         match polarRowsE content with
         | .error e => (.error e, fs4)
         | .ok rows =>
           match Fs.removeE fs4 geometryInputPath with
           | .error e => (.error e, fs4)
           | .ok fs5 =>
             match Fs.removeE fs5 massInputPath with
             | .error e => (.error e, fs5)
             | .ok fs6 =>
               match Fs.removeE fs6 resultFilePath with
               | .error e => (.error e, fs6)
               | .ok fs7 =>
                 if rows.isEmpty then (.error .schemaError, fs7) else (.ok rows, fs7)) := by
    simp only [getWingCoefficients, hg]
    rw [← hfs3, hrunAvl]
  have hchain : ∀ content rows cg cm, Fs.get fs4 resultFilePath = some content →
      polarRowsE content = .ok rows →
      Fs.get fs4 geometryInputPath = some cg → Fs.get fs4 massInputPath = some cm →
      ∃ fs7, getWingCoefficients g m a sol fs =
          (if rows.isEmpty then (.error .schemaError, fs7) else (.ok rows, fs7)) ∧
        Fs.get fs7 geometryInputPath = none ∧ Fs.get fs7 massInputPath = none ∧
        Fs.get fs7 resultFilePath = none := by
    intro content rows cg cm hres hparse hcg hcm
    obtain ⟨hrem1, hnone1, hother1⟩ := Fs.removeE_present fs4 geometryInputPath cg hcg
    set fs5 := fs4.filter fun e => !(e.1 == geometryInputPath) with hfs5
    have hcm5 : Fs.get fs5 massInputPath = some cm := by
      rw [hother1 massInputPath hmg, hcm]
    obtain ⟨hrem2, hnone2, hother2⟩ := Fs.removeE_present fs5 massInputPath cm hcm5
    set fs6 := fs5.filter fun e => !(e.1 == massInputPath) with hfs6
    have hres6 : Fs.get fs6 resultFilePath = some content := by
      rw [hother2 resultFilePath hrm, hother1 resultFilePath hrg, hres]
    obtain ⟨hrem3, hnone3, hother3⟩ := Fs.removeE_present fs6 resultFilePath content hres6
    set fs7 := fs6.filter fun e => !(e.1 == resultFilePath) with hfs7
    refine ⟨fs7, ?_, ?_, ?_, hnone3⟩
    · rw [hunfold, hres]
      simp only [hparse, hrem1, hrem2, hrem3]
    · rw [hother3 geometryInputPath (fun h => hrg h.symm)]
      rw [hother2 geometryInputPath (fun h => hmg h.symm)]
      exact hnone1
    · rw [hother3 massInputPath (fun h => hrm h.symm)]
      exact hnone2
  refine ⟨⟨hget3g, hget3m⟩, ?_, ?_, ?_, ?_⟩
  · intro content rows cg cm hres hparse hne hcg hcm
    obtain ⟨fs7, hfinal, h7g, h7m, h7r⟩ := hchain content rows cg cm hres hparse hcg hcm
    have hemp : rows.isEmpty = false := by
      cases rows with
      | nil => exact absurd rfl hne
      | cons r rs => rfl
    have hfinal2 : getWingCoefficients g m a sol fs = (.ok rows, fs7) := by
      rw [hfinal, hemp]
      rfl
    exact ⟨by rw [hfinal2], by rw [hfinal2]; exact h7g,
      by rw [hfinal2]; exact h7m, by rw [hfinal2]; exact h7r⟩
  · intro content e hres hparse
    rw [hunfold, hres]
    simp only [hparse]
  · intro content cg cm hres hparse hcg hcm
    obtain ⟨fs7, hfinal, h7g, h7m, h7r⟩ := hchain content [] cg cm hres hparse hcg hcm
    have hfinal2 : getWingCoefficients g m a sol fs = (.error .schemaError, fs7) := by
      rw [hfinal]
      rfl
    exact ⟨by rw [hfinal2], by rw [hfinal2]; exact h7g,
      by rw [hfinal2]; exact h7m, by rw [hfinal2]; exact h7r⟩
  · intro hres
    rw [hunfold, hres]

/-- Claim **C2, witness.**  `scratch_file_lifecycle` at two concrete runs: the
solver that writes the well-formed demo results file — the parsed table is
returned and all three scratch files are gone — and the solver that writes
the report whose `Cmtot` capture is `"-"` — the call raises `ValueError`
before any cleanup and the geometry and mass scratch files are still on
disk. -/
theorem scratch_file_lifecycle_witness :
    (getWingCoefficients demoGeometry demoMass (.list [0]) demoSolver []).1 =
      .ok [⟨5, mkRat 3 5, mkRat 3 100, mkRat (-1) 10⟩,
           ⟨0, mkRat 1 10, mkRat 1 100, mkRat (-1) 50⟩] ∧
    Fs.get (getWingCoefficients demoGeometry demoMass (.list [0]) demoSolver []).2
      geometryInputPath = none ∧
    Fs.get (getWingCoefficients demoGeometry demoMass (.list [0]) demoSolver []).2
      massInputPath = none ∧
    Fs.get (getWingCoefficients demoGeometry demoMass (.list [0]) demoSolver []).2
      resultFilePath = none ∧
    (getWingCoefficients demoGeometry demoMass (.list [0]) demoBadSolver []).1 =
      .error .valueError ∧
    (Fs.get (getWingCoefficients demoGeometry demoMass (.list [0]) demoBadSolver []).2
      geometryInputPath).isSome = true ∧
    (Fs.get (getWingCoefficients demoGeometry demoMass (.list [0]) demoBadSolver []).2
      massInputPath).isSome = true := by
  obtain ⟨gs, hg⟩ : ∃ gs, demoGeometry.to_avl = .ok gs := ⟨_, rfl⟩
  have h := scratch_file_lifecycle demoGeometry demoMass (.list [0]) demoSolver [] gs _ _
    hg rfl rfl
  have hbad := scratch_file_lifecycle demoGeometry demoMass (.list [0]) demoBadSolver [] gs _ _
    hg rfl rfl
  have hrne : resultFilePath ≠ geometryInputPath := by decide
  have hrnm : resultFilePath ≠ massInputPath := by decide
  have hok := h.2.1 demoPolarContent
    [⟨5, mkRat 3 5, mkRat 3 100, mkRat (-1) 10⟩, ⟨0, mkRat 1 10, mkRat 1 100, mkRat (-1) 50⟩]
    gs demoMass.to_mass
    (by simp only [demoSolver]; exact Fs.get_set_self _ _ _)
    demoPolarContent_rows (by decide)
    (by simp only [demoSolver]; rw [Fs.get_set_ne _ _ _ _ (fun hh => hrne hh.symm)]; exact h.1.1)
    (by simp only [demoSolver]; rw [Fs.get_set_ne _ _ _ _ (fun hh => hrnm hh.symm)]; exact h.1.2)
  have hbadrun := hbad.2.2.1 demoBadContent .valueError
    (by simp only [demoBadSolver]; exact Fs.get_set_self _ _ _)
    demoBadContent_err
  refine ⟨hok.1, hok.2.1, hok.2.2.1, hok.2.2.2, by rw [hbadrun], ?_, ?_⟩
  · rw [hbadrun]
    show (Fs.get (Fs.set _ resultFilePath demoBadContent) geometryInputPath).isSome = true
    rw [Fs.get_set_ne _ _ _ _ (fun hh => hrne hh.symm), hbad.1.1]
    rfl
  · rw [hbadrun]
    show (Fs.get (Fs.set _ resultFilePath demoBadContent) massInputPath).isSome = true
    rw [Fs.get_set_ne _ _ _ _ (fun hh => hrnm hh.symm), hbad.1.2]
    rfl

/-! ### `np.interp` on strictly increasing breakpoints -/

/-- At a breakpoint of a strictly increasing list, `interp` returns that
breakpoint's value exactly. -/
theorem interp_exact {α : Type} [LinearOrderedField α] (pl : List (α × α))
    (hst : pl.Pairwise (fun p q => p.1 < q.1)) (x c : α) (hmem : (x, c) ∈ pl) :
    interp x pl = c := by
  induction pl with
  | nil => cases hmem
  | cons p ps ih =>
    obtain ⟨hhead, htail⟩ := List.pairwise_cons.mp hst
    rcases hps : ps with _ | ⟨q, qs⟩
    · subst hps
      obtain ⟨x1, c1⟩ := p
      have := List.mem_singleton.mp hmem
      rw [interp]
      exact ((Prod.mk.injEq _ _ _ _ ▸ this).2).symm
    · subst hps
      obtain ⟨x1, c1⟩ := p
      obtain ⟨x2, c2⟩ := q
      rcases List.mem_cons.mp hmem with heq | hmem2
      · obtain ⟨rfl, rfl⟩ := Prod.mk.injEq _ _ _ _ ▸ heq
        rw [interp, if_pos le_rfl]
      · have hx : x1 < x := by
          have := hhead (x, c) hmem2
          exact this
        rw [interp, if_neg (not_le.mpr hx)]
        have h12 : x1 < x2 := hhead (x2, c2) (List.mem_cons_self _ _)
        by_cases hx2 : x ≤ x2
        · have heq2 : (x, c) = (x2, c2) := by
            rcases List.mem_cons.mp hmem2 with h | h
            · exact h
            · obtain ⟨hh2, _⟩ := List.pairwise_cons.mp htail
              have := hh2 (x, c) h
              exact absurd hx2 (not_le.mpr this)
          obtain ⟨rfl, rfl⟩ := Prod.mk.injEq _ _ _ _ ▸ heq2
          rw [if_pos le_rfl, mul_div_assoc, div_self (sub_ne_zero.mpr (ne_of_gt h12)),
            mul_one]
          ring
        · rw [if_neg hx2]
          exact ih htail hmem2

/-- Boundary hold on the left: below (or at) the smallest breakpoint, the
first value is returned. -/
theorem interp_left {α : Type} [LinearOrderedField α] (pl : List (α × α))
    (x c : α) (hmem : (x, c) ∈ pl)
    (hst : pl.Pairwise (fun p q => p.1 < q.1))
    (hmin : ∀ p ∈ pl, x ≤ p.1) (y : α) (hy : y ≤ x) :
    interp y pl = c := by
  induction pl with
  | nil => cases hmem
  | cons p ps ih =>
    obtain ⟨hhead, htail⟩ := List.pairwise_cons.mp hst
    rcases List.mem_cons.mp hmem with heq | hmem2
    · subst heq
      rcases hps : ps with _ | ⟨q, qs⟩
      · rw [interp]
      · obtain ⟨x2, c2⟩ := q
        rw [interp, if_pos hy]
    · have h1 : x ≤ p.1 := hmin p (List.mem_cons_self _ _)
      have h2 : p.1 < x := hhead (x, c) hmem2
      exact absurd h1 (not_le.mpr h2)

/-- Boundary hold on the right: strictly above the largest breakpoint, the
last value is returned. -/
theorem interp_right {α : Type} [LinearOrderedField α] (pl : List (α × α))
    (x c : α) (hmem : (x, c) ∈ pl)
    (hst : pl.Pairwise (fun p q => p.1 < q.1))
    (hmax : ∀ p ∈ pl, p.1 ≤ x) (y : α) (hy : x < y) :
    interp y pl = c := by
  induction pl with
  | nil => cases hmem
  | cons p ps ih =>
    obtain ⟨hhead, htail⟩ := List.pairwise_cons.mp hst
    rcases hps : ps with _ | ⟨q, qs⟩
    · subst hps
      obtain ⟨x1, c1⟩ := p
      have := List.mem_singleton.mp hmem
      rw [interp]
      exact ((Prod.mk.injEq _ _ _ _ ▸ this).2).symm
    · subst hps
      obtain ⟨x1, c1⟩ := p
      obtain ⟨x2, c2⟩ := q
      have hmemtail : (x, c) ∈ (x2, c2) :: qs := by
        rcases List.mem_cons.mp hmem with heq | h
        · obtain ⟨rfl, rfl⟩ := Prod.mk.injEq _ _ _ _ ▸ heq
          have h12 : x < x2 := hhead (x2, c2) (List.mem_cons_self _ _)
          have h21 : x2 ≤ x := hmax (x2, c2) (List.mem_cons_of_mem _ (List.mem_cons_self _ _))
          exact absurd h21 (not_le.mpr h12)
        · exact h
      have hx1 : x1 ≤ x := hmax (x1, c1) (List.mem_cons_self _ _)
      have hx2 : x2 ≤ x := hmax (x2, c2) (List.mem_cons_of_mem _ (List.mem_cons_self _ _))
      rw [interp, if_neg (not_le.mpr (lt_of_le_of_lt hx1 hy)),
        if_neg (not_le.mpr (lt_of_le_of_lt hx2 hy))]
      exact ih hmemtail htail (fun p hp => hmax p (List.mem_cons_of_mem _ hp))

/-! ### The sorted section list -/

/-- The sorted section list is sorted by spanwise coordinate. -/
theorem sortedSections_sorted (w : Wing) :
    w.sortedSections.Sorted (fun a b : WingSection => a.location.y ≤ b.location.y) := by
  haveI : IsTotal WingSection (fun a b => a.location.y ≤ b.location.y) :=
    ⟨fun a b => le_total _ _⟩
  haveI : IsTrans WingSection (fun a b => a.location.y ≤ b.location.y) :=
    ⟨fun _ _ _ h1 h2 => le_trans h1 h2⟩
  exact List.sorted_insertionSort _ _

/-- The sorted section list is a permutation of the stored one. -/
theorem sortedSections_perm (w : Wing) : w.sortedSections.Perm w.section_array :=
  List.perm_insertionSort _ _

/-- With pairwise distinct spanwise coordinates the sorted list is strictly
sorted. -/
theorem sortedSections_strict (w : Wing)
    (hnd : (w.section_array.map fun s => s.location.y).Nodup) :
    w.sortedSections.Pairwise (fun a b : WingSection => a.location.y < b.location.y) := by
  have hnd' : (w.sortedSections.map fun s => s.location.y).Nodup :=
    (((sortedSections_perm w).map _).nodup_iff).mpr hnd
  have hne : w.sortedSections.Pairwise
      (fun a b : WingSection => a.location.y ≠ b.location.y) :=
    (List.pairwise_map).mp hnd'
  exact ((sortedSections_sorted w).and hne).imp fun h => lt_of_le_of_ne h.1 h.2

/-- Two permutations of the same sections with distinct spanwise keys sort
to the same list. -/
theorem sortedSections_unique (w₁ w₂ : Wing)
    (hperm : w₁.section_array.Perm w₂.section_array)
    (hnd : (w₁.section_array.map fun s => s.location.y).Nodup) :
    w₁.sortedSections = w₂.sortedSections := by
  haveI : IsAntisymm WingSection (fun a b : WingSection => a.location.y < b.location.y) :=
    ⟨fun a b h1 h2 => absurd (lt_trans h1 h2) (lt_irrefl _)⟩
  have hnd₂ : (w₂.section_array.map fun s => s.location.y).Nodup :=
    ((hperm.map _).nodup_iff).mp hnd
  exact List.eq_of_perm_of_sorted
    (((sortedSections_perm w₁).trans hperm).trans (sortedSections_perm w₂).symm)
    (sortedSections_strict w₁ hnd) (sortedSections_strict w₂ hnd₂)

/-- Claim **C8, counterexample.**  Two sections that share a spanwise coordinate
but differ in chord: the two storage orders are permutations of each other,
yet `chord_distribution` evaluated beyond the (degenerate) range returns a
different boundary chord for each order. -/
theorem chord_distribution_order_dependent :
    (⟨[⟨⟨0, 0, 0⟩, 1, 0, "a"⟩, ⟨⟨0, 0, 0⟩, 2, 0, "a"⟩]⟩ : Wing).section_array.Perm
      (⟨[⟨⟨0, 0, 0⟩, 2, 0, "a"⟩, ⟨⟨0, 0, 0⟩, 1, 0, "a"⟩]⟩ : Wing).section_array ∧
    Wing.chord_distribution ⟨[⟨⟨0, 0, 0⟩, 1, 0, "a"⟩, ⟨⟨0, 0, 0⟩, 2, 0, "a"⟩]⟩ 1 = 2 ∧
    Wing.chord_distribution ⟨[⟨⟨0, 0, 0⟩, 2, 0, "a"⟩, ⟨⟨0, 0, 0⟩, 1, 0, "a"⟩]⟩ 1 = 1 ∧
    (2 : ℚ) ≠ 1 := by
  refine ⟨by decide, ?_, ?_, by norm_num⟩ <;>
    · show interp _ _ = _
      norm_num [Wing.sortedSections, List.insertionSort, List.orderedInsert, interp]

/-- Claim **C8, amended.**  For wings whose sections carry pairwise *distinct*
spanwise coordinates: `chord_distribution` is invariant under any
permutation of the stored order; at a section's exact spanwise coordinate it
returns that section's chord; and outside the section range it holds the
nearest endpoint's chord. -/
theorem chord_distribution_props (w₁ w₂ : Wing)
    (hperm : w₁.section_array.Perm w₂.section_array)
    (hnd : (w₁.section_array.map fun s => s.location.y).Nodup) :
    (∀ y, w₁.chord_distribution y = w₂.chord_distribution y) ∧
    (∀ s ∈ w₁.section_array, w₁.chord_distribution s.location.y = s.chord) ∧
    (∀ s ∈ w₁.section_array, (∀ t ∈ w₁.section_array, s.location.y ≤ t.location.y) →
      ∀ y, y ≤ s.location.y → w₁.chord_distribution y = s.chord) ∧
    (∀ s ∈ w₁.section_array, (∀ t ∈ w₁.section_array, t.location.y ≤ s.location.y) →
      ∀ y, s.location.y < y → w₁.chord_distribution y = s.chord) := by
  have hstrict := sortedSections_strict w₁ hnd
  have hplstrict : (w₁.sortedSections.map fun s => (s.location.y, s.chord)).Pairwise
      (fun p q : ℚ × ℚ => p.1 < q.1) := by
    rw [List.pairwise_map]
    exact hstrict
  refine ⟨?_, ?_, ?_, ?_⟩
  · intro y
    rw [Wing.chord_distribution, Wing.chord_distribution,
      sortedSections_unique w₁ w₂ hperm hnd]
  · intro s hs
    exact interp_exact _ hplstrict s.location.y s.chord
      (List.mem_map_of_mem _ (((sortedSections_perm w₁).mem_iff).mpr hs))
  · intro s hs hmin y hy
    refine interp_left _ s.location.y s.chord
      (List.mem_map_of_mem (fun s => (s.location.y, s.chord))
        (((sortedSections_perm w₁).mem_iff).mpr hs)) hplstrict ?_ y hy
    intro p hp
    obtain ⟨t, ht, rfl⟩ := List.mem_map.mp hp
    exact hmin t (((sortedSections_perm w₁).mem_iff).mp ht)
  · intro s hs hmax y hy
    refine interp_right _ s.location.y s.chord
      (List.mem_map_of_mem (fun s => (s.location.y, s.chord))
        (((sortedSections_perm w₁).mem_iff).mpr hs)) hplstrict ?_ y hy
    intro p hp
    obtain ⟨t, ht, rfl⟩ := List.mem_map.mp hp
    exact hmax t (((sortedSections_perm w₁).mem_iff).mp ht)

/-- Claim **C8, witness.**  `chord_distribution_props` at a concrete two-section
wing and its reversal: the distribution agrees at every point, is exact at
the tip section, and boundary-holds beyond the tip. -/
theorem chord_distribution_props_witness :
    (∀ y, Wing.chord_distribution ⟨[⟨⟨0, 3, 0⟩, 2, 0, "a"⟩, ⟨⟨0, 0, 0⟩, 1, 0, "a"⟩]⟩ y =
      Wing.chord_distribution ⟨[⟨⟨0, 0, 0⟩, 1, 0, "a"⟩, ⟨⟨0, 3, 0⟩, 2, 0, "a"⟩]⟩ y) ∧
    Wing.chord_distribution ⟨[⟨⟨0, 3, 0⟩, 2, 0, "a"⟩, ⟨⟨0, 0, 0⟩, 1, 0, "a"⟩]⟩ 3 = 2 ∧
    Wing.chord_distribution ⟨[⟨⟨0, 3, 0⟩, 2, 0, "a"⟩, ⟨⟨0, 0, 0⟩, 1, 0, "a"⟩]⟩ 7 = 2 := by
  have h := chord_distribution_props
    ⟨[⟨⟨0, 3, 0⟩, 2, 0, "a"⟩, ⟨⟨0, 0, 0⟩, 1, 0, "a"⟩]⟩
    ⟨[⟨⟨0, 0, 0⟩, 1, 0, "a"⟩, ⟨⟨0, 3, 0⟩, 2, 0, "a"⟩]⟩ (by decide) (by decide)
  refine ⟨h.1, ?_, ?_⟩
  · exact h.2.1 ⟨⟨0, 3, 0⟩, 2, 0, "a"⟩ (by decide)
  · exact h.2.2.2 ⟨⟨0, 3, 0⟩, 2, 0, "a"⟩ (by decide) (by decide) 7 (by norm_num)

/-! ### The planform-area integral (claim C6)

The trapezoid sum below is what `planform_area` computes once all sections
share the same downstream coordinate (the slant length degenerates to `Δy`);
`integral_interp_strict` shows it equals the integral of the interpolant
between the first and last breakpoints. -/

open MeasureTheory in
/-- Transfer interval integrability along pointwise equality on `[[a, b]]`. -/
theorem intervalIntegrable_congr_eqOn {f g : ℝ → ℝ} {a b : ℝ}
    (hg : IntervalIntegrable g volume a b) (h : Set.EqOn f g (Set.uIcc a b)) :
    IntervalIntegrable f volume a b :=
  hg.congr ((ae_restrict_mem measurableSet_uIoc).mono
    fun _ hx => (h (Set.uIoc_subset_uIcc hx)).symm)

/-- In a strictly sorted breakpoint list the first abscissa bounds the
last. -/
theorem head_le_getLast (p : ℝ × ℝ) (l : List (ℝ × ℝ))
    (hst : (p :: l).Pairwise (fun a b => a.1 < b.1)) :
    p.1 ≤ ((p :: l).getLast (List.cons_ne_nil _ _)).1 := by
  have hmem := List.getLast_mem (List.cons_ne_nil p l)
  rcases List.mem_cons.mp hmem with heq | hmem2
  · rw [heq]
  · exact le_of_lt ((List.pairwise_cons.mp hst).1 _ hmem2)

/-- The interval integral of the chord of a single linear segment is its
trapezoid area. -/
theorem integral_lin (a b c1 c2 : ℝ) (hab : a < b) :
    ∫ y in a..b, (c1 + (c2 - c1) * (y - a) / (b - a)) =
      (1 / 2) * (c1 + c2) * (b - a) := by
  have hne : b - a ≠ 0 := sub_ne_zero.mpr (ne_of_gt hab)
  have h1 : IntervalIntegrable (fun _ => c1) MeasureTheory.volume a b :=
    intervalIntegrable_const
  have h2 : IntervalIntegrable (fun y => (c2 - c1) * (y - a) / (b - a))
      MeasureTheory.volume a b :=
    (((continuous_const.mul (continuous_id.sub continuous_const)).div_const
      (b - a)).intervalIntegrable a b)
  rw [intervalIntegral.integral_add h1 h2, intervalIntegral.integral_const]
  have hpt : ∀ y : ℝ, (c2 - c1) * (y - a) / (b - a) = ((c2 - c1) / (b - a)) * (y - a) := by
    intro y; ring
  simp only [hpt]
  rw [intervalIntegral.integral_const_mul,
    intervalIntegral.integral_comp_sub_right (fun x => x) a, integral_id]
  field_simp
  ring

/-- On the first segment the interpolant is the segment's linear function. -/
theorem interp_eqOn_head (x1 c1 x2 c2 : ℝ) (rest : List (ℝ × ℝ)) (h12 : x1 < x2) :
    Set.EqOn (fun y => interp y ((x1, c1) :: (x2, c2) :: rest))
      (fun y => c1 + (c2 - c1) * (y - x1) / (x2 - x1)) (Set.uIcc x1 x2) := by
  intro y hy
  rw [Set.uIcc_of_le (le_of_lt h12)] at hy
  obtain ⟨hy1, hy2⟩ := hy
  show interp y _ = _
  by_cases hle : y ≤ x1
  · have hyx : y = x1 := le_antisymm hle hy1
    subst hyx
    rw [interp, if_pos le_rfl]
    show c1 = c1 + (c2 - c1) * (y - y) / (x2 - y)
    rw [sub_self, mul_zero, zero_div, add_zero]
  · rw [interp, if_neg hle, if_pos hy2]

/-- Beyond the first breakpoint the interpolant agrees with the interpolant
of the tail breakpoints. -/
theorem interp_eqOn_tail (x1 c1 x2 c2 : ℝ) (rest : List (ℝ × ℝ)) (h12 : x1 < x2)
    (b : ℝ) (hx2b : x2 ≤ b) :
    Set.EqOn (fun y => interp y ((x1, c1) :: (x2, c2) :: rest))
      (fun y => interp y ((x2, c2) :: rest)) (Set.uIcc x2 b) := by
  intro y hy
  rw [Set.uIcc_of_le hx2b] at hy
  obtain ⟨hy1, hy2⟩ := hy
  have hx1 : ¬ y ≤ x1 := not_le.mpr (lt_of_lt_of_le h12 hy1)
  show interp y _ = interp y _
  by_cases hle : y ≤ x2
  · have hyx : y = x2 := le_antisymm hle hy1
    subst hyx
    rw [interp, if_neg hx1, if_pos le_rfl, mul_div_assoc,
      div_self (sub_ne_zero.mpr (ne_of_gt h12)), mul_one]
    have : c1 + (c2 - c1) = c2 := by ring
    rw [this]
    rcases rest with _ | ⟨q, qs⟩
    · rw [interp]
    · obtain ⟨x3, c3⟩ := q
      rw [interp, if_pos le_rfl]
  · rw [interp, if_neg hx1, if_neg hle]

/-- The interpolant over a strictly sorted non-empty breakpoint list is
interval integrable between the first and last abscissae, and its integral
is the trapezoid sum. -/
theorem integral_interp_strict (pl : List (ℝ × ℝ)) (p₀ : ℝ × ℝ)
    (hst : (p₀ :: pl).Pairwise (fun p q => p.1 < q.1)) :
    IntervalIntegrable (fun y => interp y (p₀ :: pl)) MeasureTheory.volume p₀.1
      (((p₀ :: pl).getLast (List.cons_ne_nil _ _)).1) ∧
    ∫ y in p₀.1..(((p₀ :: pl).getLast (List.cons_ne_nil _ _)).1),
        interp y (p₀ :: pl) = trapSum (p₀ :: pl) := by
  induction pl generalizing p₀ with
  | nil =>
    constructor
    · simp
    · simp [trapSum, adjacentPairs]
  | cons p₁ tl ih =>
    obtain ⟨x1, c1⟩ := p₀
    obtain ⟨x2, c2⟩ := p₁
    have h12 : x1 < x2 :=
      (List.pairwise_cons.mp hst).1 (x2, c2) (List.mem_cons_self _ _)
    have htail : ((x2, c2) :: tl).Pairwise (fun p q : ℝ × ℝ => p.1 < q.1) :=
      (List.pairwise_cons.mp hst).2
    obtain ⟨ihInt, ihVal⟩ := ih (x2, c2) htail
    have hlast : ((x1, c1) :: (x2, c2) :: tl).getLast (List.cons_ne_nil _ _) =
        ((x2, c2) :: tl).getLast (List.cons_ne_nil _ _) :=
      List.getLast_cons (List.cons_ne_nil _ _)
    have hx2last : x2 ≤ (((x2, c2) :: tl).getLast (List.cons_ne_nil _ _)).1 :=
      head_le_getLast (x2, c2) tl htail
    have hlin : IntervalIntegrable
        (fun y => c1 + (c2 - c1) * (y - x1) / (x2 - x1)) MeasureTheory.volume x1 x2 :=
      ((continuous_const.add ((continuous_const.mul
        (continuous_id.sub continuous_const)).div_const (x2 - x1))).intervalIntegrable x1 x2)
    have hInt1 : IntervalIntegrable (fun y => interp y ((x1, c1) :: (x2, c2) :: tl))
        MeasureTheory.volume x1 x2 :=
      intervalIntegrable_congr_eqOn hlin (interp_eqOn_head x1 c1 x2 c2 tl h12)
    have hInt2 : IntervalIntegrable (fun y => interp y ((x1, c1) :: (x2, c2) :: tl))
        MeasureTheory.volume x2 (((x2, c2) :: tl).getLast (List.cons_ne_nil _ _)).1 :=
      intervalIntegrable_congr_eqOn ihInt
        (interp_eqOn_tail x1 c1 x2 c2 tl h12 _ hx2last)
    constructor
    · rw [hlast]
      exact hInt1.trans hInt2
    · rw [hlast]
      rw [← intervalIntegral.integral_add_adjacent_intervals hInt1 hInt2]
      have hseg1 : ∫ y in x1..x2, interp y ((x1, c1) :: (x2, c2) :: tl) =
          (1 / 2) * (c1 + c2) * (x2 - x1) := by
        rw [intervalIntegral.integral_congr (interp_eqOn_head x1 c1 x2 c2 tl h12)]
        exact integral_lin x1 x2 c1 c2 h12
      have hseg2 : ∫ y in x2..(((x2, c2) :: tl).getLast (List.cons_ne_nil _ _)).1,
          interp y ((x1, c1) :: (x2, c2) :: tl) = trapSum ((x2, c2) :: tl) := by
        rw [intervalIntegral.integral_congr (interp_eqOn_tail x1 c1 x2 c2 tl h12 _ hx2last)]
        exact ihVal
      have htrap : trapSum ((x1, c1) :: (x2, c2) :: tl) =
          (1 / 2) * (c1 + c2) * (x2 - x1) + trapSum ((x2, c2) :: tl) := by
        simp [trapSum, adjacentPairs]
      rw [hseg1, hseg2, htrap]

/-- With a common downstream coordinate the slant lengths of
`planform_area` degenerate to spanwise gaps: the trapezoid-with-`sqrt` sum
is the plain trapezoid sum of the breakpoints. -/
theorem slant_sum_eq_trapSum (L : List WingSection)
    (hst : L.Pairwise (fun a b : WingSection => a.location.y < b.location.y))
    (hx : ∀ s ∈ L, ∀ t ∈ L, s.location.x = t.location.x) :
    ((adjacentPairs L).map (fun p =>
      (1 / 2 : ℝ) * ((p.1.chord : ℝ) + (p.2.chord : ℝ)) *
        Real.sqrt (((p.2.location.y : ℝ) - (p.1.location.y : ℝ)) ^ 2 +
          ((p.2.location.x : ℝ) - (p.1.location.x : ℝ)) ^ 2))).sum =
    trapSum (L.map fun s => ((s.location.y : ℝ), (s.chord : ℝ))) := by
  induction L with
  | nil => simp [trapSum, adjacentPairs]
  | cons s tl ih =>
    rcases htl : tl with _ | ⟨t, rest⟩
    · simp [trapSum, adjacentPairs]
    · subst htl
      obtain ⟨hhead, htail⟩ := List.pairwise_cons.mp hst
      have hyx : t.location.x = s.location.x :=
        hx t (List.mem_cons_of_mem _ (List.mem_cons_self _ _)) s (List.mem_cons_self _ _)
      have hylt : s.location.y < t.location.y := hhead t (List.mem_cons_self _ _)
      have hsqrt : Real.sqrt (((t.location.y : ℝ) - (s.location.y : ℝ)) ^ 2 +
          ((t.location.x : ℝ) - (s.location.x : ℝ)) ^ 2) =
          (t.location.y : ℝ) - (s.location.y : ℝ) := by
        rw [hyx, sub_self]
        rw [show ((0 : ℝ) ^ 2 = 0) from by norm_num, add_zero, Real.sqrt_sq_eq_abs]
        exact abs_of_nonneg (by
          have : (s.location.y : ℝ) < (t.location.y : ℝ) := by exact_mod_cast hylt
          linarith)
      have hihx : ∀ a ∈ t :: rest, ∀ b ∈ t :: rest, a.location.x = b.location.x :=
        fun a ha b hb => hx a (List.mem_cons_of_mem _ ha) b (List.mem_cons_of_mem _ hb)
      have htrap : trapSum ((s :: t :: rest).map fun u => ((u.location.y : ℝ), (u.chord : ℝ))) =
          (1 / 2 : ℝ) * ((s.chord : ℝ) + (t.chord : ℝ)) *
            ((t.location.y : ℝ) - (s.location.y : ℝ)) +
          trapSum ((t :: rest).map fun u => ((u.location.y : ℝ), (u.chord : ℝ))) := by
        simp [trapSum, adjacentPairs]
      have hpairs : (adjacentPairs (s :: t :: rest)) = (s, t) :: adjacentPairs (t :: rest) := rfl
      rw [hpairs, List.map_cons, List.sum_cons, htrap, hsqrt, ih htail hihx]

/-- In a `≤`-sorted section list every spanwise coordinate is bounded by the
last one. -/
theorem le_getLast_key (L : List WingSection)
    (hs : L.Sorted (fun a b : WingSection => a.location.y ≤ b.location.y)) (hne : L ≠ []) :
    ∀ x ∈ L, x.location.y ≤ (L.getLast hne).location.y := by
  induction L with
  | nil => intro x hx; cases hx
  | cons a l ih =>
    intro x hx
    obtain ⟨hhead, htail⟩ := List.pairwise_cons.mp hs
    cases l with
    | nil =>
      rw [List.mem_singleton.mp hx]
      simp
    | cons b l' =>
      rw [List.getLast_cons (List.cons_ne_nil _ _)]
      rcases List.mem_cons.mp hx with rfl | hx2
      · exact hhead _ (List.getLast_mem (List.cons_ne_nil _ _))
      · exact ih htail (List.cons_ne_nil _ _) x hx2

/-- Claim **C6, counterexample.**  Two sections with equal chords 1 at leading
edges `(0, 0)` and `(4, 3)` (downstream offset 4 over spanwise gap 3):
`planform_area` integrates the chord along the slant length
`√(3² + 4²) = 5` and returns 10, while the integral of
`2 × chord_distribution` over `[0, span/2] = [0, 3]` is 6. -/
theorem planform_area_not_integral :
    Wing.planform_area ⟨[⟨⟨0, 0, 0⟩, 1, 0, "a"⟩, ⟨⟨4, 3, 0⟩, 1, 0, "a"⟩]⟩ = 10 ∧
    Wing.span ⟨[⟨⟨0, 0, 0⟩, 1, 0, "a"⟩, ⟨⟨4, 3, 0⟩, 1, 0, "a"⟩]⟩ = .ok 6 ∧
    (∫ y in (0 : ℝ)..((6 : ℚ) : ℝ) / 2,
      2 * Wing.chordDistR ⟨[⟨⟨0, 0, 0⟩, 1, 0, "a"⟩, ⟨⟨4, 3, 0⟩, 1, 0, "a"⟩]⟩ y) = 6 ∧
    (10 : ℝ) ≠ 6 := by
  have hsorted : Wing.sortedSections ⟨[⟨⟨0, 0, 0⟩, 1, 0, "a"⟩, ⟨⟨4, 3, 0⟩, 1, 0, "a"⟩]⟩ =
      [⟨⟨0, 0, 0⟩, 1, 0, "a"⟩, ⟨⟨4, 3, 0⟩, 1, 0, "a"⟩] := by
    decide
  refine ⟨?_, ?_, ?_, by norm_num⟩
  · rw [Wing.planform_area, hsorted]
    have h25 : ((((3 : ℚ) : ℝ) - ((0 : ℚ) : ℝ)) ^ 2 +
        (((4 : ℚ) : ℝ) - ((0 : ℚ) : ℝ)) ^ 2) = 25 := by
      norm_num
    show 2 * ((1 / 2 : ℝ) * (((1 : ℚ) : ℝ) + ((1 : ℚ) : ℝ)) *
      Real.sqrt ((((3 : ℚ) : ℝ) - ((0 : ℚ) : ℝ)) ^ 2 +
        (((4 : ℚ) : ℝ) - ((0 : ℚ) : ℝ)) ^ 2) + 0) = 10
    rw [h25, show (25 : ℝ) = 5 ^ 2 by norm_num,
      Real.sqrt_sq (by norm_num : (0 : ℝ) ≤ 5)]
    norm_num
  · norm_num [Wing.span, listMax]
  · have hpt : ∀ y : ℝ,
        Wing.chordDistR ⟨[⟨⟨0, 0, 0⟩, 1, 0, "a"⟩, ⟨⟨4, 3, 0⟩, 1, 0, "a"⟩]⟩ y = 1 := by
      intro y
      rw [Wing.chordDistR, hsorted]
      show interp y [(((0 : ℚ) : ℝ), ((1 : ℚ) : ℝ)), (((3 : ℚ) : ℝ), ((1 : ℚ) : ℝ))] = 1
      rw [interp]
      split_ifs
      · norm_num
      · norm_num
      · rw [interp]; norm_num
    simp only [hpt, mul_one]
    rw [intervalIntegral.integral_const]
    push_cast
    norm_num

/-- Claim **C6, amended.**  For every wing whose sections all share the same
downstream (`x`) coordinate, have pairwise distinct spanwise coordinates,
and include a root section at spanwise coordinate `0` with every section on
the non-negative half-span: `planform_area()` equals the integral of
`2 × chord_distribution(y)` over `[0, span/2]`, for arbitrary (non-uniform)
section spacing.  With a downstream offset between sections the code
integrates along the slant length instead and the equality fails. -/
theorem planform_area_eq_integral (w : Wing) (sp : ℚ)
    (hx : ∀ s ∈ w.section_array, ∀ t ∈ w.section_array, s.location.x = t.location.x)
    (hnd : (w.section_array.map fun s => s.location.y).Nodup)
    (h0 : ∃ s ∈ w.section_array, s.location.y = 0 ∧
      ∀ t ∈ w.section_array, 0 ≤ t.location.y)
    (hspan : w.span = .ok sp) :
    w.planform_area = ∫ y in (0 : ℝ)..((sp : ℝ) / 2), 2 * w.chordDistR y := by
  obtain ⟨s₀, hs₀mem, hs₀y, hmin⟩ := h0
  have hne : w.section_array ≠ [] :=
    fun h => absurd (h ▸ hs₀mem) (List.not_mem_nil _)
  have hLperm := sortedSections_perm w
  have hLne : w.sortedSections ≠ [] := by
    intro h
    rw [h] at hLperm
    exact hne hLperm.nil_eq.symm
  obtain ⟨hd, tl, hL⟩ := List.exists_cons_of_ne_nil hLne
  have hsorted : (hd :: tl).Sorted (fun a b : WingSection => a.location.y ≤ b.location.y) :=
    hL ▸ sortedSections_sorted w
  have hstrict : (hd :: tl).Pairwise (fun a b : WingSection => a.location.y < b.location.y) :=
    hL ▸ sortedSections_strict w hnd
  have hmemL : ∀ u : WingSection, u ∈ hd :: tl ↔ u ∈ w.section_array := by
    intro u
    rw [← hL]
    exact hLperm.mem_iff
  have hhd_mem : hd ∈ w.section_array := (hmemL hd).mp (List.mem_cons_self _ _)
  have hhd0 : hd.location.y = 0 := by
    have h1 : 0 ≤ hd.location.y := hmin hd hhd_mem
    have h2 : hd.location.y ≤ s₀.location.y := by
      rcases List.mem_cons.mp ((hmemL s₀).mpr hs₀mem) with heq | hs₀tl
      · rw [heq]
      · exact le_of_lt ((List.pairwise_cons.mp hstrict).1 s₀ hs₀tl)
    rw [hs₀y] at h2
    exact le_antisymm h2 h1
  obtain ⟨m, hm_eq, hsp⟩ : ∃ m,
      listMax (w.section_array.map fun s => s.location.y) = some m ∧ sp = 2 * m := by
    rcases hlm : listMax (w.section_array.map fun s => s.location.y) with _ | m
    · rw [Wing.span, hlm] at hspan
      exact absurd hspan (by simp)
    · rw [Wing.span, hlm] at hspan
      exact ⟨m, hlm, (Except.ok.inj hspan).symm⟩
  obtain ⟨s1, rest, hsec⟩ := List.exists_cons_of_ne_nil hne
  have hm_val : m = (rest.map fun s => s.location.y).foldl max s1.location.y := by
    rw [hsec, List.map_cons, listMax] at hm_eq
    exact (Option.some.inj hm_eq).symm
  have hm_ge : ∀ u ∈ w.section_array, u.location.y ≤ m := by
    intro u hu
    have hge := foldl_max_ge s1.location.y (rest.map fun s => s.location.y)
    rw [hsec] at hu
    rcases List.mem_cons.mp hu with rfl | hu2
    · rw [hm_val]; exact hge.1
    · rw [hm_val]
      exact hge.2 u.location.y (List.mem_map_of_mem _ hu2)
  have hm_mem : ∃ u ∈ w.section_array, u.location.y = m := by
    rcases foldl_max_mem s1.location.y (rest.map fun s => s.location.y) with h | h
    · exact ⟨s1, by rw [hsec]; exact List.mem_cons_self _ _, by rw [hm_val, h]⟩
    · obtain ⟨u, hu, huy⟩ := List.mem_map.mp h
      exact ⟨u, by rw [hsec]; exact List.mem_cons_of_mem _ hu, by rw [hm_val, ← huy]⟩
  have hlast_mem : ((hd :: tl).getLast (List.cons_ne_nil _ _)) ∈ w.section_array :=
    (hmemL _).mp (List.getLast_mem _)
  have hlast_key : ((hd :: tl).getLast (List.cons_ne_nil _ _)).location.y = m := by
    apply le_antisymm (hm_ge _ hlast_mem)
    obtain ⟨u, hu_mem, hu_key⟩ := hm_mem
    have := le_getLast_key (hd :: tl) hsorted (List.cons_ne_nil _ _) u ((hmemL u).mpr hu_mem)
    rw [hu_key] at this
    exact this
  have hplstrict : (((hd.location.y : ℝ), (hd.chord : ℝ)) ::
      tl.map (fun s => ((s.location.y : ℝ), (s.chord : ℝ)))).Pairwise
      (fun p q : ℝ × ℝ => p.1 < q.1) := by
    have : ((hd :: tl).map (fun s => ((s.location.y : ℝ), (s.chord : ℝ)))).Pairwise
        (fun p q : ℝ × ℝ => p.1 < q.1) := by
      rw [List.pairwise_map]
      refine hstrict.imp ?_
      intro a b h
      show ((a.location.y : ℚ) : ℝ) < ((b.location.y : ℚ) : ℝ)
      exact_mod_cast h
    rwa [List.map_cons] at this
  have hxL : ∀ s ∈ hd :: tl, ∀ t ∈ hd :: tl, s.location.x = t.location.x :=
    fun s hs t ht => hx s ((hmemL s).mp hs) t ((hmemL t).mp ht)
  have harea : w.planform_area =
      2 * trapSum ((hd :: tl).map fun s => ((s.location.y : ℝ), (s.chord : ℝ))) := by
    rw [Wing.planform_area, hL, slant_sum_eq_trapSum (hd :: tl) hstrict hxL]
  obtain ⟨hcoreInt, hcoreVal⟩ := integral_interp_strict
    (tl.map (fun s => ((s.location.y : ℝ), (s.chord : ℝ))))
    ((hd.location.y : ℝ), (hd.chord : ℝ)) hplstrict
  have hlast_pl : ((((hd.location.y : ℝ), (hd.chord : ℝ)) ::
      tl.map (fun s => ((s.location.y : ℝ), (s.chord : ℝ)))).getLast
        (List.cons_ne_nil _ _)).1 = ((m : ℚ) : ℝ) := by
    show (((hd :: tl).map (fun s => ((s.location.y : ℝ), (s.chord : ℝ)))).getLast
      (by simp)).1 = ((m : ℚ) : ℝ)
    rw [List.getLast_map]
    show (((hd :: tl).getLast _).location.y : ℝ) = ((m : ℚ) : ℝ)
    exact_mod_cast congrArg (fun q : ℚ => (q : ℝ)) hlast_key
  have hb1 : ((hd.location.y : ℚ) : ℝ) = (0 : ℝ) := by exact_mod_cast hhd0
  have hb2 : ((m : ℚ) : ℝ) = (sp : ℝ) / 2 := by
    have h2m : (sp : ℝ) = 2 * ((m : ℚ) : ℝ) := by exact_mod_cast congrArg (fun q : ℚ => (q : ℝ)) hsp
    rw [h2m]
    ring
  have hintegrand : ∀ y : ℝ, w.chordDistR y =
      interp y (((hd.location.y : ℝ), (hd.chord : ℝ)) ::
        tl.map (fun s => ((s.location.y : ℝ), (s.chord : ℝ)))) := by
    intro y
    rw [Wing.chordDistR, hL, List.map_cons]
  calc w.planform_area
      = 2 * trapSum (((hd.location.y : ℝ), (hd.chord : ℝ)) ::
          tl.map (fun s => ((s.location.y : ℝ), (s.chord : ℝ)))) := by
        rw [harea, List.map_cons]
    _ = 2 * ∫ y in ((hd.location.y : ℚ) : ℝ)..((m : ℚ) : ℝ),
          interp y (((hd.location.y : ℝ), (hd.chord : ℝ)) ::
            tl.map (fun s => ((s.location.y : ℝ), (s.chord : ℝ)))) := by
        rw [← hcoreVal, hlast_pl]
    _ = ∫ y in ((hd.location.y : ℚ) : ℝ)..((m : ℚ) : ℝ),
          2 * interp y (((hd.location.y : ℝ), (hd.chord : ℝ)) ::
            tl.map (fun s => ((s.location.y : ℝ), (s.chord : ℝ)))) :=
        (intervalIntegral.integral_const_mul 2 _).symm
    _ = ∫ y in ((hd.location.y : ℚ) : ℝ)..((m : ℚ) : ℝ), 2 * w.chordDistR y :=
        intervalIntegral.integral_congr fun y _ => by rw [hintegrand y]
    _ = ∫ y in (0 : ℝ)..((sp : ℝ) / 2), 2 * w.chordDistR y := by
        rw [hb1, hb2]

/-- Claim **C6, witness.**  `planform_area_eq_integral` at a concrete rectangular
two-section wing (sections at spanwise 0 and 3, chords 1 and 2, common
`x = 0`): its planform area equals the integral of twice its chord
distribution over `[0, span/2]`. -/
theorem planform_area_eq_integral_witness :
    Wing.planform_area ⟨[⟨⟨0, 0, 0⟩, 1, 0, "a"⟩, ⟨⟨0, 3, 0⟩, 2, 0, "a"⟩]⟩ =
      ∫ y in (0 : ℝ)..(((6 : ℚ) : ℝ) / 2),
        2 * Wing.chordDistR ⟨[⟨⟨0, 0, 0⟩, 1, 0, "a"⟩, ⟨⟨0, 3, 0⟩, 2, 0, "a"⟩]⟩ y :=
  planform_area_eq_integral ⟨[⟨⟨0, 0, 0⟩, 1, 0, "a"⟩, ⟨⟨0, 3, 0⟩, 2, 0, "a"⟩]⟩ 6
    (by decide) (by decide)
    ⟨⟨⟨0, 0, 0⟩, 1, 0, "a"⟩, by decide, rfl, by decide⟩
    (by norm_num [Wing.span, listMax])


end MdoAlgorithm
